import Mathlib

/-!
# The sidebar table of contents (`src/toc.js`)

A shallow embedding of `MDBookSidebarScrollbox.connectedCallback`, of the click
listener it installs and of `toggleSection`, together with the properties of the
navigation widget that are stated about them.

* JavaScript strings are Lean strings; `split("#")[0]`, `startsWith`, `endsWith`
  and the regular expression test are functions on their characters.
* The document is a forest of elements in first-child / next-sibling form.  An
  element is identified by its path, written from the element upwards: the head
  is the element's index among its element siblings, the tail is the path of
  its parent.  `parentElement` is the tail, `previousElementSibling` lowers the
  head by one.
* The browser's URL resolution (the `href` property of an anchor) is a
  parameter `resolve`: the resolution against the URL of the document the
  script runs in.  Two documents have two resolutions.
-/

namespace Toc

/-! ## Strings -/

/-- The JavaScript expression `s.split("#")[0]`: the text before the first `#`. -/
def splitHash0 (s : String) : String :=
  ⟨s.data.takeWhile (fun c => c != '#')⟩

/-- The JavaScript method `s.endsWith(suffix)`. -/
def endsWith (s suffix : String) : Bool :=
  suffix.data.isSuffixOf s.data

/-- The JavaScript method `s.startsWith(start)`. -/
def startsWith (s start : String) : Bool :=
  start.data.isPrefixOf s.data

/-- The character class `[a-z+]` of the regular expression. -/
def schemeChar (c : Char) : Bool :=
  ('a' ≤ c && c ≤ 'z') || c == '+'

/-- The test `/^(?:[a-z+]+:)?\/\//.test(href)`: either `href` starts with `//`, or it
starts with one or more characters of `[a-z+]` followed by `://`.  As `:` is not in
the class, the characters matched by `[a-z+]+` are the whole leading run of the class. -/
def absoluteUrlTest (href : String) : Bool :=
  startsWith href "//" ||
    (!(href.data.takeWhile schemeChar).isEmpty &&
      "://".data.isPrefixOf (href.data.dropWhile schemeChar))

/-- The variable `current_page` of `connectedCallback`: the location without its
fragment, with `index.html` appended when that text ends in `/`. -/
def current_page (location : String) : String :=
  let page := splitHash0 location
  if endsWith page "/" then page ++ "index.html" else page

/-- The conversion of a scroll offset to the string that `sessionStorage.setItem`
stores.  Scroll offsets are whole numbers of pixels here, printed in decimal. -/
def numberToString (n : Nat) : String :=
  ⟨Nat.toDigits 10 n⟩

/-- The conversion of a stored string back to a number when it is assigned to
`scrollTop`, for strings of decimal digits. -/
def stringToNumber (s : String) : Nat :=
  s.data.foldl (fun acc c => 10 * acc + (c.toNat - 48)) 0

/-! ## The document -/

/-- The path of an element, from the element upwards. -/
abbrev Path := List Nat

/-- What the script reads and writes of an element: its tag name, its `id`, its class
list and its `href` content attribute. -/
structure Element where
  tagName : String
  id : String
  classList : List String
  href : Option String
deriving DecidableEq

/-- A forest of elements: `node e children next` is the element `e` with its element
children and its following siblings. -/
inductive Dom where
  | nil : Dom
  | node (e : Element) (children : Dom) (next : Dom) : Dom

/-- The elements of a forest in document order, each with its path; `par` is the path
of the parent and `i` the index of the first element of the forest. -/
def Dom.elements : Dom → Path → Nat → List (Path × Element)
  | .nil, _, _ => []
  | .node e c n, par, i =>
    (i :: par, e) :: (c.elements (i :: par) 0 ++ n.elements par (i + 1))

/-- Replaces every element `e` at path `p` by `f p e`, keeping the shape. -/
def Dom.mapElements (f : Path → Element → Element) : Dom → Path → Nat → Dom
  | .nil, _, _ => .nil
  | .node e c n, par, i =>
    .node (f (i :: par) e) (c.mapElements f (i :: par) 0) (n.mapElements f par (i + 1))

/-- Replaces the children of the element at path `target` by `content`. -/
def Dom.setChildren (target : Path) (content : Dom) : Dom → Path → Nat → Dom
  | .nil, _, _ => .nil
  | .node e c n, par, i =>
    .node e (if i :: par = target then content else Dom.setChildren target content c (i :: par) 0)
      (Dom.setChildren target content n par (i + 1))

/-- All elements of the document in document order. -/
def allElements (doc : Dom) : List (Path × Element) :=
  doc.elements [] 0

/-- The element at a path, if there is one. -/
def getElement (doc : Dom) (p : Path) : Option Element :=
  (allElements doc).lookup p

/-- Applies `f` to the element at path `p`. -/
def updateElement (doc : Dom) (p : Path) (f : Element → Element) : Dom :=
  doc.mapElements (fun q e => if q = p then f e else e) [] 0

/-- The assignment `this.innerHTML = ...`, with the parsed markup as `content`. -/
def setInnerHTML (doc : Dom) (this : Path) (content : Dom) : Dom :=
  Dom.setChildren this content doc [] 0

/-- The property `parentElement`; `none` is `null`. -/
def parentElement : Path → Option Path
  | _ :: j :: r => some (j :: r)
  | _ => none

/-- The property `previousElementSibling`; `none` is `null`. -/
def previousElementSibling : Path → Option Path
  | (k + 1) :: r => some (k :: r)
  | _ => none

/-- The property `tagName` of the element at `p`. -/
def tagNameAt (doc : Dom) (p : Path) : Option String :=
  (getElement doc p).map Element.tagName

/-- The test `classList.contains(c)` on the element at `p`. -/
def classListContains (doc : Dom) (p : Path) (c : String) : Bool :=
  match getElement doc p with
  | some e => decide (c ∈ e.classList)
  | none => false

/-- The method `classList.add(c)` on an element. -/
def Element.addClass (c : String) (e : Element) : Element :=
  if c ∈ e.classList then e else { e with classList := e.classList ++ [c] }

/-- The method `classList.toggle(c)` on an element. -/
def Element.toggleClass (c : String) (e : Element) : Element :=
  if c ∈ e.classList then { e with classList := e.classList.filter (fun d => d != c) }
  else { e with classList := e.classList ++ [c] }

/-- The call `classList.add(c)` on the element at `p`. -/
def classListAdd (doc : Dom) (p : Path) (c : String) : Dom :=
  updateElement doc p (Element.addClass c)

/-- Whether `p` is a descendant of `anc` (and not `anc` itself). -/
def isDescendantOf (p anc : Path) : Bool :=
  anc.isSuffixOf p && p != anc

/-- The call `this.querySelectorAll("a")`: the anchors below `this`, in document order. -/
def querySelectorAllA (doc : Dom) (this : Path) : List Path :=
  ((allElements doc).filter
    (fun pe => isDescendantOf pe.1 this && pe.2.tagName == "A")).map Prod.fst

/-- Whether the element at `p` or one of its ancestors has the id `id`. -/
def selfOrAncestorHasId (doc : Dom) (id : String) : Path → Bool
  | [] => false
  | k :: r =>
    (match getElement doc (k :: r) with
      | some e => e.id == id
      | none => false) || selfOrAncestorHasId doc id r

/-- Whether the element at `p` lies below an element with id `sidebar`. -/
def inSidebar (doc : Dom) (p : Path) : Bool :=
  selfOrAncestorHasId doc "sidebar" p.tail

/-- The call `document.querySelector('#sidebar .active')`. -/
def querySelectorSidebarActive (doc : Dom) : Option Path :=
  ((allElements doc).find?
    (fun pe => decide ("active" ∈ pe.2.classList) && inSidebar doc pe.1)).map Prod.fst

/-- The call `document.querySelectorAll('#sidebar a.toggle')`. -/
def querySelectorAllSidebarToggle (doc : Dom) : List Path :=
  ((allElements doc).filter
    (fun pe => pe.2.tagName == "A" && decide ("toggle" ∈ pe.2.classList)
      && inSidebar doc pe.1)).map Prod.fst

/-! ## Active entry and ancestor expansion -/

/-- The rewriting of a link target in the loop: when the `href` attribute is present,
non-empty, does not start with `#` and fails the regular expression test, it becomes
`path_to_root + href`. -/
def rewriteHref (path_to_root : String) (e : Element) : Element :=
  match e.href with
  | some href =>
    if href != "" && !startsWith href "#" && !absoluteUrlTest href then
      { e with href := some (path_to_root ++ href) }
    else e
  | none => e

/-- The property `link.href`: the `href` attribute resolved by the browser, and the
empty string when the attribute is absent. -/
def linkHref (resolve : String → String) (e : Option Element) : String :=
  match e with
  | some el =>
    (match el.href with
      | some h => resolve h
      | none => "")
  | none => ""

/-- The body of the `while (parent)` loop for one element `parent`. -/
def expandStep (doc : Dom) (parent : Path) : Dom :=
  if tagNameAt doc parent == some "LI" then
    match previousElementSibling parent with
    | some prev =>
      if classListContains doc prev "chapter-item" then classListAdd doc prev "expanded"
      else doc
    | none => doc
  else doc

/-- The loop `while (parent) { ...; parent = parent.parentElement; }`, started at the
element `parent`; the empty path stands for `null`. -/
def expandWalk (doc : Dom) : Path → Dom
  | [] => doc
  | k :: r => expandWalk (expandStep doc (k :: r)) r

/-- The branch of the loop for a matching link: it is marked active, its parent is
marked expanded when it is a chapter item, and the upward walk runs. -/
def markActive (doc : Dom) (link : Path) : Dom :=
  let doc1 := classListAdd doc link "active"
  match parentElement link with
  | some parent =>
    let doc2 :=
      if classListContains doc1 parent "chapter-item" then classListAdd doc1 parent "expanded"
      else doc1
    expandWalk doc2 parent
  | none => doc1

/-- The condition of the `if` that marks a link: `link.href === current_page`, or the
first link when `path_to_root` is empty and the page ends with `/index.html`. -/
def matchesPage (resolve : String → String) (path_to_root page : String) (doc : Dom)
    (i : Nat) (link : Path) : Bool :=
  linkHref resolve (getElement doc link) == page ||
    (i == 0 && path_to_root == "" && endsWith page "/index.html")

/-- One iteration of the `for` loop, for the link `links[i]`. -/
def loopBody (resolve : String → String) (path_to_root page : String) (doc : Dom)
    (i : Nat) (link : Path) : Dom :=
  let doc1 := updateElement doc link (rewriteHref path_to_root)
  if matchesPage resolve path_to_root page doc1 i link then markActive doc1 link else doc1

/-- The loop `for (var i = 0; i < l; ++i)` over the remaining links, from index `i`. -/
def forLoop (resolve : String → String) (path_to_root page : String) :
    List Path → Nat → Dom → Dom
  | [], _, doc => doc
  | link :: rest, i, doc =>
    forLoop resolve path_to_root page rest (i + 1)
      (loopBody resolve path_to_root page doc i link)

/-! ## The page and the callbacks -/

/-- The state the script works on: the document, the scroll offset of the widget, the
session storage, the elements `scrollIntoView` was called on, and the elements that
carry the click listener and the toggle listener. -/
structure Page where
  document : Dom
  scrollTop : Nat
  sessionStorage : String → Option String
  scrolledIntoView : List Path
  clickListeners : List Path
  toggleListeners : List Path

/-- The call `sessionStorage.setItem(key, value)`. -/
def setItem (storage : String → Option String) (key value : String) : String → Option String :=
  fun k => if k = key then some value else storage k

/-- The call `sessionStorage.removeItem(key)`. -/
def removeItem (storage : String → Option String) (key : String) : String → Option String :=
  fun k => if k = key then none else storage k

/-- The document after `this.innerHTML = ...` and the loop over the links. -/
def resolveActive (resolve : String → String) (path_to_root location : String)
    (this : Path) (content : Dom) (doc : Dom) : Dom :=
  let doc0 := setInnerHTML doc this content
  forLoop resolve path_to_root (current_page location) (querySelectorAllA doc0 this) 0 doc0

/-- The method `connectedCallback` of the widget `this`; `content` is the parsed
markup, `resolve` the browser's URL resolution and `location` is
`document.location.href`. -/
def connectedCallback (resolve : String → String) (path_to_root location : String)
    (this : Path) (content : Dom) (page : Page) : Page :=
  let doc := resolveActive resolve path_to_root location this content page.document
  let sidebarScrollTop := page.sessionStorage "sidebar-scroll"
  let storage := removeItem page.sessionStorage "sidebar-scroll"
  let sidebarAnchorToggles := querySelectorAllSidebarToggle doc
  let scrolled : Nat × List Path :=
    match sidebarScrollTop with
    | some v =>
      if v != "" then (stringToNumber v, page.scrolledIntoView)
      else
        (match querySelectorSidebarActive doc with
          | some activeSection => (page.scrollTop, page.scrolledIntoView ++ [activeSection])
          | none => (page.scrollTop, page.scrolledIntoView))
    | none =>
      (match querySelectorSidebarActive doc with
        | some activeSection => (page.scrollTop, page.scrolledIntoView ++ [activeSection])
        | none => (page.scrollTop, page.scrolledIntoView))
  { document := doc
    scrollTop := scrolled.1
    sessionStorage := storage
    scrolledIntoView := scrolled.2
    clickListeners := page.clickListeners ++ [this]
    toggleListeners := page.toggleListeners ++ sidebarAnchorToggles }

/-- The click listener of the widget, for a click whose `e.target` is `target`. -/
def clickListener (page : Page) (target : Path) : Page :=
  if tagNameAt page.document target == some "A" then
    { page with
      sessionStorage :=
        setItem page.sessionStorage "sidebar-scroll" (numberToString page.scrollTop) }
  else page

/-- The function `toggleSection` for an event whose `currentTarget` is the given
element; `none` when `parentElement` is `null`. -/
def toggleSection (doc : Dom) (currentTarget : Path) : Option Dom :=
  match parentElement currentTarget with
  | some parent => some (updateElement doc parent (Element.toggleClass "expanded"))
  | none => none

/-! ## What the loop marks -/

/-- The `href` content attribute of the element at `p`. -/
def hrefAt (doc : Dom) (p : Path) : Option (Option String) :=
  (getElement doc p).map Element.href

/-- The element that one round of the `while (parent)` loop marks expanded: the
previous sibling of `parent`, when `parent` is an `LI` and that sibling is a chapter
item. -/
def stepTarget (doc : Dom) (parent : Path) : Option Path :=
  if tagNameAt doc parent == some "LI" then
    match previousElementSibling parent with
    | some prev => if classListContains doc prev "chapter-item" then some prev else none
    | none => none
  else none

/-- The elements that the `while (parent)` loop marks expanded when started at `parent`. -/
def walkTargets (doc : Dom) : Path → List Path
  | [] => []
  | k :: r => (stepTarget doc (k :: r)).toList ++ walkTargets doc r

/-- The elements that are marked expanded for a matching link: its parent when that is
a chapter item, and the elements marked by the upward walk from the parent. -/
def expandTargets (doc : Dom) (link : Path) : List Path :=
  match parentElement link with
  | some parent =>
    (if classListContains doc parent "chapter-item" then [parent] else [])
      ++ walkTargets doc parent
  | none => []

/-- The value of `link.href` after the rewriting of the link target. -/
def resolvedUrl (resolve : String → String) (path_to_root : String) (doc : Dom)
    (link : Path) : String :=
  linkHref resolve ((getElement doc link).map (rewriteHref path_to_root))

/-- The condition under which link number `i` is the active entry: its resolved URL is
the page, or it is the first link, the root path is empty and the page ends with
`/index.html`. -/
def isActiveEntry (resolve : String → String) (path_to_root page : String) (doc : Dom)
    (i : Nat) (link : Path) : Bool :=
  resolvedUrl resolve path_to_root doc link == page ||
    (i == 0 && path_to_root == "" && endsWith page "/index.html")

/-- The document `doc2` differs from `doc1` by added classes only: tag names and link
targets are those of `doc1`, and the element at `x` has the class `c` in `doc2` exactly
when it has it in `doc1` or `G x c` holds. -/
def Gains (doc1 doc2 : Dom) (G : Path → String → Prop) : Prop :=
  (∀ x, tagNameAt doc2 x = tagNameAt doc1 x) ∧
  (∀ x, hrefAt doc2 x = hrefAt doc1 x) ∧
  (∀ x c, classListContains doc2 x c = true ↔ (classListContains doc1 x c = true ∨ G x c))

/-- The `href` attribute after the rewriting of the loop, from the attribute before. -/
def rewrittenTarget (path_to_root : String) : Option String → Option String
  | some href =>
    if href != "" && !startsWith href "#" && !absoluteUrlTest href then
      some (path_to_root ++ href)
    else some href
  | none => none

/-- The marks the loop over `links`, numbered from `i`, adds to the document `doc`:
`active` on the links that are active entries, `expanded` on their expansion targets. -/
def LoopMarks (resolve : String → String) (path_to_root page : String) (doc : Dom)
    (links : List Path) (i : Nat) (x : Path) (c : String) : Prop :=
  (c = "active" ∧ ∃ j, (j, x) ∈ links.enumFrom i ∧
      isActiveEntry resolve path_to_root page doc j x = true) ∨
  (c = "expanded" ∧ ∃ j l, (j, l) ∈ links.enumFrom i ∧
      isActiveEntry resolve path_to_root page doc j l = true ∧ x ∈ expandTargets doc l)

/-! ## Sample documents -/

/-- An `li` element with the given classes. -/
def li (classes : List String) (children next : Dom) : Dom :=
  .node ⟨"LI", "", classes, none⟩ children next

/-- An `ol` element with the given classes. -/
def ol (classes : List String) (children next : Dom) : Dom :=
  .node ⟨"OL", "", classes, none⟩ children next

/-- An `a` element with the given `href` attribute. -/
def anchor (href : String) (children next : Dom) : Dom :=
  .node ⟨"A", "", [], some href⟩ children next

/-- The `strong` element that holds a chapter number. -/
def strong (next : Dom) : Dom :=
  .node ⟨"STRONG", "", [], none⟩ .nil next

/-- The toggle control of a chapter: `<a class="toggle">`. -/
def toggle (next : Dom) : Dom :=
  .node ⟨"A", "", ["toggle"], none⟩ .nil next

/-- The hosting page around the widget: `<nav id="sidebar">` with the still empty
`<mdbook-sidebar-scrollbox>` as its child.  The widget has the path `[0, 0]`. -/
def sidebarHost : Dom :=
  .node ⟨"NAV", "sidebar", ["sidebar"], none⟩
    (.node ⟨"MDBOOK-SIDEBAR-SCROLLBOX", "", ["sidebar-scrollbox"], none⟩ .nil .nil) .nil

/-- A navigation tree laid out as the markup of the script: an introduction, two
chapters, of which the second has a toggle and a nested section of two pages in a wrapper
`li`, and a last chapter. -/
def tocSample : Dom :=
  ol ["chapter"]
    (li ["chapter-item", "affix"] (anchor "introduction.html" .nil .nil)
    (li ["chapter-item"] (anchor "guide/start.html" (strong .nil) .nil)
    (li ["chapter-item"] (anchor "guide/graphs.html" (strong .nil) (toggle .nil))
    (li []
      (ol ["section"]
        (li ["chapter-item"] (anchor "guide/graphs/no_index.html" (strong .nil) .nil)
        (li ["chapter-item"] (anchor "guide/graphs/hash_index.html" (strong .nil) .nil)
        .nil)) .nil)
    (li ["chapter-item"] (anchor "guide/macros.html" (strong .nil) .nil) .nil))))) .nil

/-- A navigation tree with two pages, the second of which is `index.html`. -/
def tocWithIndex : Dom :=
  ol ["chapter"]
    (li ["chapter-item"] (anchor "introduction.html" .nil .nil)
    (li ["chapter-item"] (anchor "index.html" .nil .nil) .nil)) .nil

/-- A navigation tree with a relative link, two links with a scheme, and a fragment. -/
def tocLinkKinds : Dom :=
  ol ["chapter"]
    (li ["chapter-item"] (anchor "foo/bar.html" .nil .nil)
    (li ["chapter-item"] (anchor "https://example.com/x" .nil .nil)
    (li ["chapter-item"] (anchor "#section" .nil .nil)
    (li ["chapter-item"] (anchor "HTTPS://example.com/x" .nil .nil) .nil)))) .nil

/-- Resolution of a relative reference against a base directory, given by its segments
from the innermost outwards: each leading `../` removes one segment, the rest is
appended. -/
def resolveDots : List String → List Char → String
  | _ :: up, '.' :: '.' :: '/' :: rest => resolveDots up rest
  | dirs, ref => String.join (dirs.reverse.map (fun d => d ++ "/")) ++ ⟨ref⟩

/-- The URL resolution of a page in the directory `https://example.org/book/`. -/
def resolveInBook (href : String) : String :=
  resolveDots ["book", "https://example.org"] href.data

/-- The URL resolution of a page in the directory `https://example.org/book/guide/graphs/`. -/
def resolveInGraphs (href : String) : String :=
  resolveDots ["graphs", "guide", "book", "https://example.org"] href.data

/-- A page with the given document, scroll offset and stored scroll string. -/
def samplePage (doc : Dom) (scrollTop : Nat) (stored : Option String) : Page :=
  { document := doc
    scrollTop := scrollTop
    sessionStorage := fun k => if k = "sidebar-scroll" then stored else none
    scrolledIntoView := []
    clickListeners := []
    toggleListeners := [] }

/-- Follows the wording of the specification, not the script: `href` begins with a URL
scheme in the sense of RFC 3986, a letter followed by letters, digits, `+`, `-` or `.`,
and then `://`. -/
def beginsWithUrlScheme (href : String) : Bool :=
  match href.data with
  | [] => false
  | c :: cs =>
    c.isAlpha &&
      "://".data.isPrefixOf
        (cs.dropWhile (fun d => d.isAlphanum || d == '+' || d == '-' || d == '.'))

/-- The next page load: a new page, with the session storage left by the previous one. -/
def reload (storage : String → Option String) (fresh : Page) : Page :=
  { fresh with sessionStorage := storage }

/-- A navigation tree with two pages, the second of which has an empty `href`. -/
def tocEmptyHref : Dom :=
  ol ["chapter"]
    (li ["chapter-item"] (anchor "introduction.html" .nil .nil)
    (li ["chapter-item"] (anchor "" .nil .nil) .nil)) .nil

/-- The URL resolution of the document at `location` in the directory
`https://example.org/book/`: the empty reference is the URL of the document itself,
without its fragment, and other references are resolved against the directory. -/
def resolveInBookAt (location href : String) : String :=
  if href = "" then splitHash0 location else resolveInBook href

/-! ## Lemmas on strings -/

theorem endsWith_iff (s suffix : String) :
    endsWith s suffix = true ↔ suffix.data <:+ s.data := by
  simp [endsWith]

theorem startsWith_iff (s start : String) :
    startsWith s start = true ↔ start.data <+: s.data := by
  simp [startsWith]

theorem takeWhile_append_of_exists {α : Type} (p : α → Bool) (l m : List α)
    (h : ∃ a ∈ l, p a = false) : (l ++ m).takeWhile p = l.takeWhile p := by
  induction l with
  | nil => simp at h
  | cons a l ih =>
    by_cases ha : p a = true
    · have h2 : ∃ b ∈ l, p b = false := by
        obtain ⟨b, hb, hpb⟩ := h
        rcases List.mem_cons.mp hb with rfl | hb
        · simp [ha] at hpb
        · exact ⟨b, hb, hpb⟩
      simp [List.takeWhile_cons, ha, ih h2]
    · simp [List.takeWhile_cons, ha]

theorem splitHash0_no_hash (s : String) : '#' ∉ (splitHash0 s).data := by
  intro h
  have := List.mem_takeWhile_imp h
  simp at this

theorem splitHash0_append_of_hash (s t : String) (h : '#' ∈ s.data) :
    splitHash0 (s ++ t) = splitHash0 s := by
  unfold splitHash0
  congr 1
  rw [String.data_append]
  exact takeWhile_append_of_exists _ _ _ ⟨'#', h, by simp⟩

theorem splitHash0_of_no_hash (s : String) (h : '#' ∉ s.data) : splitHash0 s = s := by
  unfold splitHash0
  have : s.data.takeWhile (fun c => c != '#') = s.data := by
    rw [List.takeWhile_eq_self_iff]
    intro c hc
    have : c ≠ '#' := fun e => h (e ▸ hc)
    simpa using this
  rw [this]

theorem current_page_no_hash (location : String) : '#' ∉ (current_page location).data := by
  unfold current_page
  simp only
  split
  · rw [String.data_append, List.mem_append]
    rintro (h | h)
    · exact splitHash0_no_hash _ h
    · revert h; decide
  · exact splitHash0_no_hash _

theorem endsWith_append_index (s : String) : endsWith (s ++ "index.html") "/" = false := by
  rw [Bool.eq_false_iff]
  intro h
  rw [endsWith_iff, String.data_append] at h
  obtain ⟨t, ht⟩ := h
  have h1 := congrArg List.getLast? ht
  simp at h1

theorem current_page_not_dir (location : String) :
    endsWith (current_page location) "/" = false := by
  unfold current_page
  simp only
  split
  · exact endsWith_append_index _
  · rename_i h
    simpa using h

theorem current_page_index (location : String) (h : endsWith location "/" = true) :
    current_page (location ++ "index.html") = current_page location := by
  by_cases hh : '#' ∈ location.data
  · unfold current_page
    rw [splitHash0_append_of_hash _ _ hh]
  · have h1 : splitHash0 location = location := splitHash0_of_no_hash _ hh
    have h2 : splitHash0 (location ++ "index.html") = location ++ "index.html" := by
      apply splitHash0_of_no_hash
      rw [String.data_append, List.mem_append]
      rintro (h | h)
      · exact hh h
      · revert h; decide
    unfold current_page
    simp only [h1, h2, h, endsWith_append_index, if_true]
    simp

/-! ## Lemmas on the document -/

theorem elements_mapElements (f : Path → Element → Element) (d : Dom) (par : Path) (i : Nat) :
    (d.mapElements f par i).elements par i
      = (d.elements par i).map (fun pe => (pe.1, f pe.1 pe.2)) := by
  induction d generalizing par i with
  | nil => rfl
  | node e c n ihc ihn =>
    simp [Dom.mapElements, Dom.elements, ihc, ihn]

theorem lookup_map_snd (g : Path → Element → Element) (q : Path) (l : List (Path × Element)) :
    List.lookup q (l.map (fun pe => (pe.1, g pe.1 pe.2))) = (List.lookup q l).map (g q) := by
  induction l with
  | nil => rfl
  | cons a l ih =>
    obtain ⟨p, e⟩ := a
    by_cases h : q = p
    · subst h
      simp [List.lookup]
    · have hb : (q == p) = false := by simpa using h
      simp [List.lookup, hb, ih]

theorem getElement_updateElement (doc : Dom) (p q : Path) (f : Element → Element) :
    getElement (updateElement doc p f) q
      = if q = p then (getElement doc q).map f else getElement doc q := by
  unfold getElement allElements updateElement
  rw [elements_mapElements,
    lookup_map_snd (fun q e => if q = p then f e else e) q (doc.elements [] 0)]
  split
  · rfl
  · simp

theorem allElements_updateElement_keys (doc : Dom) (p : Path) (f : Element → Element) :
    (allElements (updateElement doc p f)).map Prod.fst = (allElements doc).map Prod.fst := by
  unfold allElements updateElement
  rw [elements_mapElements]
  simp [Function.comp_def]

theorem mem_elements_suffix (d : Dom) (par : Path) (i : Nat) (p : Path)
    (h : p ∈ (d.elements par i).map Prod.fst) : ∃ j, i ≤ j ∧ (j :: par) <:+ p := by
  induction d generalizing par i with
  | nil => simp [Dom.elements] at h
  | node e c n ihc ihn =>
    simp only [Dom.elements, List.map_cons, List.map_append, List.mem_cons, List.mem_append] at h
    rcases h with h | h | h
    · exact ⟨i, le_refl _, h ▸ List.suffix_refl _⟩
    · obtain ⟨j, _, hj⟩ := ihc _ _ h
      exact ⟨i, le_refl _, (List.suffix_cons j (i :: par)).trans hj⟩
    · obtain ⟨j, hij, hj⟩ := ihn _ _ h
      exact ⟨j, by omega, hj⟩

theorem suffix_cons_inj {par p : Path} {i j : Nat} (h1 : (i :: par) <:+ p)
    (h2 : (j :: par) <:+ p) : i = j := by
  have h := List.suffix_of_suffix_length_le h1 h2 (by simp)
  have := h.eq_of_length (by simp)
  simpa using this

theorem elements_keys_nodup (d : Dom) (par : Path) (i : Nat) :
    ((d.elements par i).map Prod.fst).Nodup := by
  induction d generalizing par i with
  | nil => simp [Dom.elements]
  | node e c n ihc ihn =>
    simp only [Dom.elements, List.map_cons, List.map_append, List.nodup_cons, List.mem_append]
    refine ⟨?_, ?_⟩
    · rintro (h | h)
      · obtain ⟨j, _, hj⟩ := mem_elements_suffix _ _ _ _ h
        have := hj.length_le
        simp at this
      · obtain ⟨j, hij, hj⟩ := mem_elements_suffix _ _ _ _ h
        have := suffix_cons_inj (List.suffix_refl (i :: par)) hj
        omega
    · rw [List.nodup_append]
      refine ⟨ihc _ _, ihn _ _, ?_⟩
      intro p hp hq
      obtain ⟨j, _, hj⟩ := mem_elements_suffix _ _ _ _ hp
      obtain ⟨j2, hij, hj2⟩ := mem_elements_suffix _ _ _ _ hq
      have := suffix_cons_inj ((List.suffix_cons j (i :: par)).trans hj) hj2
      omega

theorem getElement_isSome_of_mem (doc : Dom) (p : Path)
    (h : p ∈ (allElements doc).map Prod.fst) : (getElement doc p).isSome = true := by
  unfold getElement
  rw [List.lookup_isSome_iff]
  obtain ⟨⟨q, e⟩, hm, rfl⟩ := List.mem_map.mp h
  exact ⟨(q, e), hm, by simp⟩

theorem querySelectorAllA_nodup (doc : Dom) (this : Path) :
    (querySelectorAllA doc this).Nodup := by
  unfold querySelectorAllA
  have h := elements_keys_nodup doc [] 0
  exact (List.Nodup.sublist (List.Sublist.map _ (List.filter_sublist _)) h)

theorem querySelectorAllA_isSome (doc : Dom) (this : Path) (p : Path)
    (h : p ∈ querySelectorAllA doc this) : (getElement doc p).isSome = true := by
  apply getElement_isSome_of_mem
  unfold querySelectorAllA at h
  exact (List.Sublist.map _ (List.filter_sublist _)).subset h

/-! ## Lemmas on the marks -/

theorem Gains.refl (doc : Dom) : Gains doc doc (fun _ _ => False) :=
  ⟨fun _ => rfl, fun _ => rfl, fun _ _ => by simp⟩

theorem Gains.trans {d1 d2 d3 : Dom} {G G2 : Path → String → Prop}
    (h1 : Gains d1 d2 G) (h2 : Gains d2 d3 G2) :
    Gains d1 d3 (fun x c => G x c ∨ G2 x c) := by
  obtain ⟨a1, b1, c1⟩ := h1
  obtain ⟨a2, b2, c2⟩ := h2
  refine ⟨fun x => (a2 x).trans (a1 x), fun x => (b2 x).trans (b1 x), fun x c => ?_⟩
  rw [c2, c1, or_assoc]

theorem Gains.congr {d1 d2 : Dom} {G G2 : Path → String → Prop}
    (h1 : Gains d1 d2 G) (h : ∀ x c, G x c ↔ G2 x c) : Gains d1 d2 G2 := by
  obtain ⟨a1, b1, c1⟩ := h1
  exact ⟨a1, b1, fun x c => by rw [c1, h]⟩

theorem Gains.isSome {d1 d2 : Dom} {G : Path → String → Prop} (h : Gains d1 d2 G)
    (x : Path) : (getElement d2 x).isSome = (getElement d1 x).isSome := by
  have := h.1 x
  unfold tagNameAt at this
  cases h1 : getElement d1 x <;> cases h2 : getElement d2 x <;> simp_all

theorem classListContains_true_isSome {doc : Dom} {x : Path} {c : String}
    (h : classListContains doc x c = true) : (getElement doc x).isSome = true := by
  unfold classListContains at h
  cases hx : getElement doc x <;> simp_all

theorem mem_addClass (c d : String) (e : Element) :
    d ∈ (e.addClass c).classList ↔ d ∈ e.classList ∨ d = c := by
  unfold Element.addClass
  split
  · constructor
    · exact Or.inl
    · rintro (h | rfl)
      · exact h
      · assumption
  · simp

theorem addClass_tagName (c : String) (e : Element) : (e.addClass c).tagName = e.tagName := by
  unfold Element.addClass; split <;> rfl

theorem addClass_href (c : String) (e : Element) : (e.addClass c).href = e.href := by
  unfold Element.addClass; split <;> rfl

theorem addClass_id (c : String) (e : Element) : (e.addClass c).id = e.id := by
  unfold Element.addClass; split <;> rfl

theorem gains_classListAdd (doc : Dom) (p : Path) (c : String) :
    Gains doc (classListAdd doc p c)
      (fun x d => x = p ∧ d = c ∧ (getElement doc p).isSome = true) := by
  refine ⟨fun x => ?_, fun x => ?_, fun x d => ?_⟩
  · unfold tagNameAt classListAdd
    rw [getElement_updateElement]
    split
    · cases getElement doc x <;> simp [addClass_tagName]
    · rfl
  · unfold hrefAt classListAdd
    rw [getElement_updateElement]
    split
    · cases getElement doc x <;> simp [addClass_href]
    · rfl
  · unfold classListContains classListAdd
    rw [getElement_updateElement]
    by_cases hx : x = p
    · subst hx
      cases hg : getElement doc x
      · simp
      · simp [mem_addClass]
    · simp [hx]

theorem stepTarget_congr {d1 d2 : Dom} (ht : ∀ x, tagNameAt d2 x = tagNameAt d1 x)
    (hc : ∀ x, classListContains d2 x "chapter-item" = classListContains d1 x "chapter-item")
    (p : Path) : stepTarget d2 p = stepTarget d1 p := by
  unfold stepTarget
  rw [ht p]
  cases previousElementSibling p <;> simp [hc]

theorem walkTargets_congr {d1 d2 : Dom} (ht : ∀ x, tagNameAt d2 x = tagNameAt d1 x)
    (hc : ∀ x, classListContains d2 x "chapter-item" = classListContains d1 x "chapter-item")
    (p : Path) : walkTargets d2 p = walkTargets d1 p := by
  induction p with
  | nil => rfl
  | cons k r ih => simp [walkTargets, ih, stepTarget_congr ht hc]

theorem expandTargets_congr {d1 d2 : Dom} (ht : ∀ x, tagNameAt d2 x = tagNameAt d1 x)
    (hc : ∀ x, classListContains d2 x "chapter-item" = classListContains d1 x "chapter-item")
    (p : Path) : expandTargets d2 p = expandTargets d1 p := by
  unfold expandTargets
  cases parentElement p <;> simp [hc, walkTargets_congr ht hc]

theorem Gains.chapterItem {d1 d2 : Dom} {G : Path → String → Prop} (h : Gains d1 d2 G)
    (hG : ∀ x, ¬ G x "chapter-item") (x : Path) :
    classListContains d2 x "chapter-item" = classListContains d1 x "chapter-item" := by
  have := h.2.2 x "chapter-item"
  simp only [hG x, or_false] at this
  exact Bool.eq_iff_iff.mpr this

theorem stepTarget_isSome {doc : Dom} {p s : Path} (h : stepTarget doc p = some s) :
    (getElement doc s).isSome = true := by
  unfold stepTarget at h
  split at h
  · split at h
    · split at h
      · rename_i hc
        cases h
        exact classListContains_true_isSome hc
      · cases h
    · cases h
  · cases h

theorem gains_expandStep (doc : Dom) (p : Path) :
    Gains doc (expandStep doc p) (fun x c => stepTarget doc p = some x ∧ c = "expanded") := by
  unfold expandStep stepTarget
  split
  · cases hp : previousElementSibling p with
    | none => exact (Gains.refl doc).congr (by simp)
    | some prev =>
      simp only
      split
      · rename_i hc
        refine (gains_classListAdd doc prev "expanded").congr ?_
        intro x c
        simp only [Option.some.injEq, classListContains_true_isSome hc, and_true]
        constructor
        · rintro ⟨rfl, rfl⟩; exact ⟨rfl, rfl⟩
        · rintro ⟨rfl, rfl⟩; exact ⟨rfl, rfl⟩
      · exact (Gains.refl doc).congr (by simp)
  · exact (Gains.refl doc).congr (by simp)

theorem gains_expandWalk (doc : Dom) (p : Path) :
    Gains doc (expandWalk doc p) (fun x c => x ∈ walkTargets doc p ∧ c = "expanded") := by
  induction p generalizing doc with
  | nil => exact (Gains.refl doc).congr (by simp [walkTargets])
  | cons k r ih =>
    have h1 := gains_expandStep doc (k :: r)
    have h2 := ih (expandStep doc (k :: r))
    rw [walkTargets_congr h1.1 (h1.chapterItem (by simp))] at h2
    refine (h1.trans h2).congr ?_
    intro x c
    simp only [walkTargets, List.mem_append, Option.mem_toList, Option.mem_def]
    tauto

theorem gains_markActive (doc : Dom) (link : Path) (hl : (getElement doc link).isSome = true) :
    Gains doc (markActive doc link)
      (fun x c => (x = link ∧ c = "active") ∨ (x ∈ expandTargets doc link ∧ c = "expanded")) := by
  have h1 := gains_classListAdd doc link "active"
  unfold markActive expandTargets
  cases hp : parentElement link with
  | none =>
    refine h1.congr ?_
    intro x c
    simp [hl]
  | some parent =>
    simp only
    have hc1 := h1.chapterItem (by simp)
    rw [hc1 parent]
    by_cases hc : classListContains doc parent "chapter-item" = true
    · simp only [hc, if_true]
      have h2 := gains_classListAdd (classListAdd doc link "active") parent "expanded"
      have h12 := h1.trans h2
      have h3 := gains_expandWalk
        (classListAdd (classListAdd doc link "active") parent "expanded") parent
      rw [walkTargets_congr h12.1 (h12.chapterItem (by simp))] at h3
      refine (h12.trans h3).congr ?_
      intro x c
      have hs : (getElement (classListAdd doc link "active") parent).isSome = true := by
        rw [h1.isSome]; exact classListContains_true_isSome hc
      simp only [hl, hs, and_true, List.mem_append, List.mem_singleton]
      tauto
    · simp only [hc]
      have h3 := gains_expandWalk (classListAdd doc link "active") parent
      rw [walkTargets_congr h1.1 hc1] at h3
      refine (h1.trans h3).congr ?_
      intro x c
      simp only [hl, and_true]
      simp

theorem rewriteHref_href (path_to_root : String) (e : Element) :
    (rewriteHref path_to_root e).href = rewrittenTarget path_to_root e.href := by
  unfold rewriteHref rewrittenTarget
  cases h : e.href with
  | none => simp [h]
  | some t =>
    simp only
    split <;> simp [h]

theorem rewriteHref_tagName (path_to_root : String) (e : Element) :
    (rewriteHref path_to_root e).tagName = e.tagName := by
  unfold rewriteHref
  cases e.href with
  | none => rfl
  | some t => simp only; split <;> rfl

theorem rewriteHref_classList (path_to_root : String) (e : Element) :
    (rewriteHref path_to_root e).classList = e.classList := by
  unfold rewriteHref
  cases e.href with
  | none => rfl
  | some t => simp only; split <;> rfl

theorem rewriteHref_id (path_to_root : String) (e : Element) :
    (rewriteHref path_to_root e).id = e.id := by
  unfold rewriteHref
  cases e.href with
  | none => rfl
  | some t => simp only; split <;> rfl

theorem tagNameAt_rewrite (doc : Dom) (link x : Path) (path_to_root : String) :
    tagNameAt (updateElement doc link (rewriteHref path_to_root)) x = tagNameAt doc x := by
  unfold tagNameAt
  rw [getElement_updateElement]
  split
  · cases getElement doc x <;> simp [rewriteHref_tagName]
  · rfl

theorem classListContains_rewrite (doc : Dom) (link x : Path) (path_to_root c : String) :
    classListContains (updateElement doc link (rewriteHref path_to_root)) x c
      = classListContains doc x c := by
  unfold classListContains
  rw [getElement_updateElement]
  by_cases hx : x = link
  · simp only [hx, if_true]
    cases getElement doc link <;> simp [rewriteHref_classList]
  · simp only [hx, if_false]

theorem hrefAt_rewrite (doc : Dom) (link x : Path) (path_to_root : String) :
    hrefAt (updateElement doc link (rewriteHref path_to_root)) x
      = if x = link then (hrefAt doc x).map (rewrittenTarget path_to_root) else hrefAt doc x := by
  unfold hrefAt
  rw [getElement_updateElement]
  split
  · cases getElement doc x <;> simp [rewriteHref_href]
  · rfl

/-! ## The loop over the links -/

theorem linkHref_congr (resolve : String → String) (o1 o2 : Option Element)
    (h : o1.map Element.href = o2.map Element.href) : linkHref resolve o1 = linkHref resolve o2 := by
  cases o1 <;> cases o2 <;> simp_all [linkHref]

theorem resolvedUrl_congr (resolve : String → String) (path_to_root : String) {d1 d2 : Dom}
    {l : Path} (h : hrefAt d2 l = hrefAt d1 l) :
    resolvedUrl resolve path_to_root d2 l = resolvedUrl resolve path_to_root d1 l := by
  unfold resolvedUrl
  apply linkHref_congr
  unfold hrefAt at h
  cases h1 : getElement d1 l <;> cases h2 : getElement d2 l <;>
    simp_all [rewriteHref_href]

theorem isActiveEntry_congr (resolve : String → String) (path_to_root page : String)
    {d1 d2 : Dom} {l : Path} (i : Nat) (h : hrefAt d2 l = hrefAt d1 l) :
    isActiveEntry resolve path_to_root page d2 i l
      = isActiveEntry resolve path_to_root page d1 i l := by
  unfold isActiveEntry
  rw [resolvedUrl_congr resolve path_to_root h]

theorem matchesPage_rewrite (resolve : String → String) (path_to_root page : String)
    (doc : Dom) (i : Nat) (link : Path) :
    matchesPage resolve path_to_root page (updateElement doc link (rewriteHref path_to_root))
        i link
      = isActiveEntry resolve path_to_root page doc i link := by
  unfold matchesPage isActiveEntry resolvedUrl
  rw [getElement_updateElement]
  simp

theorem loopMarks_nil (resolve : String → String) (path_to_root page : String) (doc : Dom)
    (i : Nat) (x : Path) (c : String) :
    ¬ LoopMarks resolve path_to_root page doc [] i x c := by
  simp [LoopMarks]

theorem loopMarks_cons (resolve : String → String) (path_to_root page : String) (doc : Dom)
    (link : Path) (rest : List Path) (i : Nat) (x : Path) (c : String) :
    LoopMarks resolve path_to_root page doc (link :: rest) i x c ↔
      (isActiveEntry resolve path_to_root page doc i link = true ∧
        ((x = link ∧ c = "active") ∨ (x ∈ expandTargets doc link ∧ c = "expanded"))) ∨
      LoopMarks resolve path_to_root page doc rest (i + 1) x c := by
  unfold LoopMarks
  simp only [List.enumFrom_cons, List.mem_cons, Prod.mk.injEq]
  constructor
  · rintro (⟨hc, j, (⟨rfl, rfl⟩ | hm), ha⟩ | ⟨hc, j, l, (⟨rfl, rfl⟩ | hm), ha, hx⟩)
    · exact Or.inl ⟨ha, Or.inl ⟨rfl, hc⟩⟩
    · exact Or.inr (Or.inl ⟨hc, j, hm, ha⟩)
    · exact Or.inl ⟨ha, Or.inr ⟨hx, hc⟩⟩
    · exact Or.inr (Or.inr ⟨hc, j, l, hm, ha, hx⟩)
  · rintro (⟨ha, (⟨rfl, hc⟩ | ⟨hx, hc⟩)⟩ | ⟨hc, j, hm, ha⟩ | ⟨hc, j, l, hm, ha, hx⟩)
    · exact Or.inl ⟨hc, i, Or.inl ⟨rfl, rfl⟩, ha⟩
    · exact Or.inr ⟨hc, i, link, Or.inl ⟨rfl, rfl⟩, ha, hx⟩
    · exact Or.inl ⟨hc, j, Or.inr hm, ha⟩
    · exact Or.inr ⟨hc, j, l, Or.inr hm, ha, hx⟩

theorem snd_mem_of_mem_enumFrom {links : List Path} {i j : Nat} {x : Path}
    (h : (j, x) ∈ links.enumFrom i) : x ∈ links := by
  induction links generalizing i with
  | nil => simp at h
  | cons a l ih =>
    simp only [List.enumFrom_cons, List.mem_cons, Prod.mk.injEq] at h
    rcases h with ⟨_, rfl⟩ | h
    · exact List.mem_cons_self _ _
    · exact List.mem_cons_of_mem _ (ih h)

theorem loopMarks_congr (resolve : String → String) (path_to_root page : String)
    {d1 d2 : Dom} (links : List Path) (i : Nat) (x : Path) (c : String)
    (ht : ∀ x, tagNameAt d2 x = tagNameAt d1 x)
    (hc : ∀ x, classListContains d2 x "chapter-item" = classListContains d1 x "chapter-item")
    (hh : ∀ l ∈ links, hrefAt d2 l = hrefAt d1 l) :
    LoopMarks resolve path_to_root page d2 links i x c ↔
      LoopMarks resolve path_to_root page d1 links i x c := by
  unfold LoopMarks
  constructor
  · rintro (⟨h0, j, hm, ha⟩ | ⟨h0, j, l, hm, ha, hx⟩)
    · rw [isActiveEntry_congr _ _ _ _ (hh x (snd_mem_of_mem_enumFrom hm))] at ha
      exact Or.inl ⟨h0, j, hm, ha⟩
    · rw [isActiveEntry_congr _ _ _ _ (hh l (snd_mem_of_mem_enumFrom hm))] at ha
      rw [expandTargets_congr ht hc] at hx
      exact Or.inr ⟨h0, j, l, hm, ha, hx⟩
  · rintro (⟨h0, j, hm, ha⟩ | ⟨h0, j, l, hm, ha, hx⟩)
    · rw [← isActiveEntry_congr _ _ _ _ (hh x (snd_mem_of_mem_enumFrom hm))] at ha
      exact Or.inl ⟨h0, j, hm, ha⟩
    · rw [← isActiveEntry_congr _ _ _ _ (hh l (snd_mem_of_mem_enumFrom hm))] at ha
      rw [← expandTargets_congr ht hc] at hx
      exact Or.inr ⟨h0, j, l, hm, ha, hx⟩

theorem isSome_of_tagNameAt {d1 d2 : Dom} (ht : ∀ x, tagNameAt d2 x = tagNameAt d1 x)
    (x : Path) : (getElement d2 x).isSome = (getElement d1 x).isSome := by
  have := ht x
  unfold tagNameAt at this
  cases h1 : getElement d1 x <;> cases h2 : getElement d2 x <;> simp_all

theorem gains_loopBody (resolve : String → String) (path_to_root page : String) (doc : Dom)
    (i : Nat) (link : Path) (hl : (getElement doc link).isSome = true) :
    Gains (updateElement doc link (rewriteHref path_to_root))
      (loopBody resolve path_to_root page doc i link)
      (fun x c => isActiveEntry resolve path_to_root page doc i link = true ∧
        ((x = link ∧ c = "active") ∨ (x ∈ expandTargets doc link ∧ c = "expanded"))) := by
  unfold loopBody
  simp only
  rw [matchesPage_rewrite]
  by_cases ha : isActiveEntry resolve path_to_root page doc i link = true
  · simp only [ha, if_true, true_and]
    have hs : (getElement (updateElement doc link (rewriteHref path_to_root)) link).isSome
        = true := by
      rw [isSome_of_tagNameAt (fun x => tagNameAt_rewrite doc link x path_to_root)]
      exact hl
    have h := gains_markActive _ link hs
    rw [expandTargets_congr (fun x => tagNameAt_rewrite doc link x path_to_root)
      (fun x => classListContains_rewrite doc link x path_to_root "chapter-item")] at h
    exact h
  · simp only [ha]
    exact (Gains.refl _).congr (by simp)

theorem forLoop_spec (resolve : String → String) (path_to_root page : String)
    (links : List Path) (i : Nat) (doc : Dom) (hnd : links.Nodup)
    (hex : ∀ l ∈ links, (getElement doc l).isSome = true) :
    (∀ x, tagNameAt (forLoop resolve path_to_root page links i doc) x = tagNameAt doc x) ∧
    (∀ x, hrefAt (forLoop resolve path_to_root page links i doc) x
      = if x ∈ links then (hrefAt doc x).map (rewrittenTarget path_to_root) else hrefAt doc x) ∧
    (∀ x c, classListContains (forLoop resolve path_to_root page links i doc) x c = true ↔
      (classListContains doc x c = true ∨
        LoopMarks resolve path_to_root page doc links i x c)) := by
  induction links generalizing i doc with
  | nil =>
    refine ⟨fun _ => rfl, fun _ => by simp [forLoop], fun x c => ?_⟩
    simp [forLoop, loopMarks_nil]
  | cons link rest ih =>
    have hl : (getElement doc link).isSome = true := hex link (List.mem_cons_self _ _)
    have hb := gains_loopBody resolve path_to_root page doc i link hl
    have ht2 : ∀ x, tagNameAt (loopBody resolve path_to_root page doc i link) x
        = tagNameAt doc x := fun x =>
      (hb.1 x).trans (tagNameAt_rewrite doc link x path_to_root)
    have hh2 : ∀ x, hrefAt (loopBody resolve path_to_root page doc i link) x
        = if x = link then (hrefAt doc x).map (rewrittenTarget path_to_root)
          else hrefAt doc x := fun x =>
      (hb.2.1 x).trans (hrefAt_rewrite doc link x path_to_root)
    have hc2 : ∀ x, classListContains (loopBody resolve path_to_root page doc i link) x
        "chapter-item" = classListContains doc x "chapter-item" := fun x =>
      (hb.chapterItem (by simp) x).trans
        (classListContains_rewrite doc link x path_to_root "chapter-item")
    have hnl : link ∉ rest := (List.nodup_cons.mp hnd).1
    have hex2 : ∀ l ∈ rest,
        (getElement (loopBody resolve path_to_root page doc i link) l).isSome = true := by
      intro l hm
      rw [isSome_of_tagNameAt ht2]
      exact hex l (List.mem_cons_of_mem _ hm)
    obtain ⟨a, b, c⟩ := ih (i + 1) (loopBody resolve path_to_root page doc i link)
      (List.nodup_cons.mp hnd).2 hex2
    refine ⟨fun x => (a x).trans (ht2 x), fun x => ?_, fun x cl => ?_⟩
    · show hrefAt (forLoop resolve path_to_root page rest (i + 1)
        (loopBody resolve path_to_root page doc i link)) x = _
      rw [b x, hh2 x]
      by_cases hx : x = link
      · subst hx
        simp [hnl]
      · simp [hx]
    · show classListContains (forLoop resolve path_to_root page rest (i + 1)
        (loopBody resolve path_to_root page doc i link)) x cl = true ↔ _
      rw [c x cl, hb.2.2 x cl, classListContains_rewrite, loopMarks_cons,
        loopMarks_congr resolve path_to_root page rest (i + 1) x cl ht2 hc2
          (fun l hm => by
            rw [hh2 l]
            have : l ≠ link := fun e => hnl (e ▸ hm)
            simp [this]),
        or_assoc]

/-! ## Active-entry resolution -/

theorem connectedCallback_document (resolve : String → String)
    (path_to_root location : String) (this : Path) (content : Dom) (page : Page) :
    (connectedCallback resolve path_to_root location this content page).document
      = resolveActive resolve path_to_root location this content page.document := rfl

theorem resolveActive_spec (resolve : String → String) (path_to_root location : String)
    (this : Path) (content doc : Dom) :
    (∀ x, tagNameAt (resolveActive resolve path_to_root location this content doc) x
      = tagNameAt (setInnerHTML doc this content) x) ∧
    (∀ x, hrefAt (resolveActive resolve path_to_root location this content doc) x
      = if x ∈ querySelectorAllA (setInnerHTML doc this content) this
        then (hrefAt (setInnerHTML doc this content) x).map (rewrittenTarget path_to_root)
        else hrefAt (setInnerHTML doc this content) x) ∧
    (∀ x c, classListContains (resolveActive resolve path_to_root location this content doc)
        x c = true ↔
      (classListContains (setInnerHTML doc this content) x c = true ∨
        LoopMarks resolve path_to_root (current_page location) (setInnerHTML doc this content)
          (querySelectorAllA (setInnerHTML doc this content) this) 0 x c)) :=
  forLoop_spec resolve path_to_root (current_page location) _ 0 _
    (querySelectorAllA_nodup _ _) (querySelectorAllA_isSome _ _)

theorem mem_enumFrom_zero {links : List Path} {j : Nat} {x : Path} :
    (j, x) ∈ links.enumFrom 0 ↔ links[j]? = some x :=
  List.mk_mem_enum_iff_getElem?

theorem loopMarks_active (resolve : String → String) (path_to_root page : String) (doc : Dom)
    (links : List Path) (hnd : links.Nodup) (i : Nat) (x : Path) (hx : links[i]? = some x) :
    LoopMarks resolve path_to_root page doc links 0 x "active" ↔
      isActiveEntry resolve path_to_root page doc i x = true := by
  unfold LoopMarks
  constructor
  · rintro (⟨_, j, hm, ha⟩ | ⟨h, _⟩)
    · rw [mem_enumFrom_zero] at hm
      have hi : i < links.length := by
        rcases Nat.lt_or_ge i links.length with h | h
        · exact h
        · rw [List.getElem?_eq_none h] at hx; cases hx
      have : i = j := List.getElem?_inj hi hnd (hx.trans hm.symm)
      rw [this]; exact ha
    · exact absurd h (by decide)
  · intro ha
    exact Or.inl ⟨rfl, i, mem_enumFrom_zero.mpr hx, ha⟩

theorem isActiveEntry_iff (resolve : String → String) (path_to_root page : String) (doc : Dom)
    (i : Nat) (x : Path) :
    isActiveEntry resolve path_to_root page doc i x = true ↔
      (resolvedUrl resolve path_to_root doc x = page ∨
        (i = 0 ∧ path_to_root = "" ∧ endsWith page "/index.html" = true)) := by
  unfold isActiveEntry
  simp [and_assoc]

theorem active_iff (resolve : String → String) (path_to_root location : String)
    (this : Path) (content : Dom) (page : Page)
    (hno : ∀ l ∈ querySelectorAllA (setInnerHTML page.document this content) this,
      classListContains (setInnerHTML page.document this content) l "active" = false)
    (i : Nat) (link : Path)
    (hi : (querySelectorAllA (setInnerHTML page.document this content) this)[i]? = some link) :
    classListContains
        (connectedCallback resolve path_to_root location this content page).document
        link "active" = true ↔
      (resolvedUrl resolve path_to_root (setInnerHTML page.document this content) link
          = current_page location ∨
        (i = 0 ∧ path_to_root = "" ∧
          endsWith (current_page location) "/index.html" = true)) := by
  rw [connectedCallback_document,
    (resolveActive_spec resolve path_to_root location this content page.document).2.2,
    loopMarks_active _ _ _ _ _ (querySelectorAllA_nodup _ _) i link hi, isActiveEntry_iff]
  have hm : link ∈ querySelectorAllA (setInnerHTML page.document this content) this :=
    List.getElem?_mem hi
  simp [hno link hm]

/-- Claim C1.  When no link is marked active beforehand, link number `i` of the tree
carries `active` after `connectedCallback` if and only if its resolved URL after the
rewriting equals the normalized location, or it is the first link, the root path is
empty and the normalized location ends with `/index.html`. -/
theorem active_iff_matches (resolve : String → String) (path_to_root location : String)
    (this : Path) (content : Dom) (page : Page)
    (hno : ∀ l ∈ querySelectorAllA (setInnerHTML page.document this content) this,
      classListContains (setInnerHTML page.document this content) l "active" = false)
    (i : Nat) (link : Path)
    (hi : (querySelectorAllA (setInnerHTML page.document this content) this)[i]? = some link) :
    classListContains
        (connectedCallback resolve path_to_root location this content page).document
        link "active" = true ↔
      (resolvedUrl resolve path_to_root (setInnerHTML page.document this content) link
          = current_page location ∨
        (i = 0 ∧ path_to_root = "" ∧
          endsWith (current_page location) "/index.html" = true)) :=
  active_iff resolve path_to_root location this content page hno i link hi

/-- Witness for C1: on the sample tree, with an empty root path and the location
`https://example.org/book/index.html`, the first link is marked active although its
resolved URL is not the location. -/
theorem active_iff_matches_witness :
    (classListContains
        (connectedCallback resolveInBook "" "https://example.org/book/index.html" [0, 0]
          tocSample (samplePage sidebarHost 0 none)).document
        [0, 0, 0, 0, 0] "active" = true ↔
      (resolvedUrl resolveInBook "" (setInnerHTML sidebarHost [0, 0] tocSample) [0, 0, 0, 0, 0]
          = current_page "https://example.org/book/index.html" ∨
        (0 = 0 ∧ "" = "" ∧
          endsWith (current_page "https://example.org/book/index.html") "/index.html" = true)))
    ∧ resolvedUrl resolveInBook "" (setInnerHTML sidebarHost [0, 0] tocSample) [0, 0, 0, 0, 0]
        ≠ current_page "https://example.org/book/index.html" :=
  ⟨active_iff_matches resolveInBook "" "https://example.org/book/index.html" [0, 0]
    tocSample (samplePage sidebarHost 0 none) (by decide) 0 [0, 0, 0, 0, 0] (by decide),
   by decide⟩

/-- Counterexample for C2: with an empty root path and the location
`https://example.org/book/index.html`, the tree with the links `introduction.html` and
`index.html` has no active link beforehand, the location is the resolved URL of the
second link, and both links are marked active. -/
theorem first_match_wins_counterexample :
    querySelectorAllA (setInnerHTML sidebarHost [0, 0] tocWithIndex) [0, 0]
        = [[0, 0, 0, 0, 0], [0, 1, 0, 0, 0]] ∧
      (∀ l ∈ querySelectorAllA (setInnerHTML sidebarHost [0, 0] tocWithIndex) [0, 0],
        classListContains (setInnerHTML sidebarHost [0, 0] tocWithIndex) l "active" = false) ∧
      resolvedUrl resolveInBook "" (setInnerHTML sidebarHost [0, 0] tocWithIndex)
          [0, 1, 0, 0, 0] = current_page "https://example.org/book/index.html" ∧
      classListContains
        (connectedCallback resolveInBook "" "https://example.org/book/index.html" [0, 0]
          tocWithIndex (samplePage sidebarHost 0 none)).document
        [0, 0, 0, 0, 0] "active" = true ∧
      classListContains
        (connectedCallback resolveInBook "" "https://example.org/book/index.html" [0, 0]
          tocWithIndex (samplePage sidebarHost 0 none)).document
        [0, 1, 0, 0, 0] "active" = true := by
  decide

/-- Claim C2, amended.  With no link marked active beforehand, `connectedCallback` marks
every link that satisfies the rule of C1, so that several links can be marked.  At most
one link is marked active if and only if no two different links resolve to the normalized
location and, when the rule for the first link applies (empty root path and a location
ending with `/index.html`), a link that resolves to the location is the first link.
Under these two conditions, when the normalized location is the resolved URL of a link,
that link is marked active and no other. -/
theorem at_most_one_active (resolve : String → String) (path_to_root location : String)
    (this : Path) (content : Dom) (page : Page)
    (hno : ∀ l ∈ querySelectorAllA (setInnerHTML page.document this content) this,
      classListContains (setInnerHTML page.document this content) l "active" = false) :
    (∀ i link,
      (querySelectorAllA (setInnerHTML page.document this content) this)[i]? = some link →
      (classListContains
          (connectedCallback resolve path_to_root location this content page).document
          link "active" = true ↔
        (resolvedUrl resolve path_to_root (setInnerHTML page.document this content) link
            = current_page location ∨
          (i = 0 ∧ path_to_root = "" ∧
            endsWith (current_page location) "/index.html" = true)))) ∧
    ((∀ l1 ∈ querySelectorAllA (setInnerHTML page.document this content) this,
      ∀ l2 ∈ querySelectorAllA (setInnerHTML page.document this content) this,
        classListContains
          (connectedCallback resolve path_to_root location this content page).document
          l1 "active" = true →
        classListContains
          (connectedCallback resolve path_to_root location this content page).document
          l2 "active" = true →
        l1 = l2) ↔
      ((∀ l1 ∈ querySelectorAllA (setInnerHTML page.document this content) this,
        ∀ l2 ∈ querySelectorAllA (setInnerHTML page.document this content) this,
          resolvedUrl resolve path_to_root (setInnerHTML page.document this content) l1
            = current_page location →
          resolvedUrl resolve path_to_root (setInnerHTML page.document this content) l2
            = current_page location →
          l1 = l2) ∧
        (path_to_root = "" → endsWith (current_page location) "/index.html" = true →
          ∀ l ∈ querySelectorAllA (setInnerHTML page.document this content) this,
            resolvedUrl resolve path_to_root (setInnerHTML page.document this content) l
              = current_page location →
            (querySelectorAllA (setInnerHTML page.document this content) this)[0]?
              = some l))) ∧
    (((∀ l1 ∈ querySelectorAllA (setInnerHTML page.document this content) this,
        ∀ l2 ∈ querySelectorAllA (setInnerHTML page.document this content) this,
          resolvedUrl resolve path_to_root (setInnerHTML page.document this content) l1
            = current_page location →
          resolvedUrl resolve path_to_root (setInnerHTML page.document this content) l2
            = current_page location →
          l1 = l2) ∧
        (path_to_root = "" → endsWith (current_page location) "/index.html" = true →
          ∀ l ∈ querySelectorAllA (setInnerHTML page.document this content) this,
            resolvedUrl resolve path_to_root (setInnerHTML page.document this content) l
              = current_page location →
            (querySelectorAllA (setInnerHTML page.document this content) this)[0]?
              = some l)) →
      ∀ l ∈ querySelectorAllA (setInnerHTML page.document this content) this,
        resolvedUrl resolve path_to_root (setInnerHTML page.document this content) l
          = current_page location →
        ∀ l2 ∈ querySelectorAllA (setInnerHTML page.document this content) this,
          (classListContains
            (connectedCallback resolve path_to_root location this content page).document
            l2 "active" = true ↔ l2 = l)) := by
  have rule := active_iff resolve path_to_root location this content page hno
  have suff : ((∀ l1 ∈ querySelectorAllA (setInnerHTML page.document this content) this,
        ∀ l2 ∈ querySelectorAllA (setInnerHTML page.document this content) this,
          resolvedUrl resolve path_to_root (setInnerHTML page.document this content) l1
            = current_page location →
          resolvedUrl resolve path_to_root (setInnerHTML page.document this content) l2
            = current_page location →
          l1 = l2) ∧
        (path_to_root = "" → endsWith (current_page location) "/index.html" = true →
          ∀ l ∈ querySelectorAllA (setInnerHTML page.document this content) this,
            resolvedUrl resolve path_to_root (setInnerHTML page.document this content) l
              = current_page location →
            (querySelectorAllA (setInnerHTML page.document this content) this)[0]?
              = some l)) →
      ∀ l1 ∈ querySelectorAllA (setInnerHTML page.document this content) this,
      ∀ l2 ∈ querySelectorAllA (setInnerHTML page.document this content) this,
        classListContains
          (connectedCallback resolve path_to_root location this content page).document
          l1 "active" = true →
        classListContains
          (connectedCallback resolve path_to_root location this content page).document
          l2 "active" = true →
        l1 = l2 := by
    rintro ⟨huniq, halias⟩ l1 h1 l2 h2 a1 a2
    obtain ⟨i1, hi1⟩ := List.mem_iff_getElem?.mp h1
    obtain ⟨i2, hi2⟩ := List.mem_iff_getElem?.mp h2
    rw [rule i1 l1 hi1] at a1
    rw [rule i2 l2 hi2] at a2
    rcases a1 with u1 | ⟨z1, e1, x1⟩ <;> rcases a2 with u2 | ⟨z2, e2, x2⟩
    · exact huniq l1 h1 l2 h2 u1 u2
    · subst z2
      have := halias e2 x2 l1 h1 u1
      rw [hi2] at this
      exact (Option.some.inj this).symm
    · subst z1
      have := halias e1 x1 l2 h2 u2
      rw [hi1] at this
      exact Option.some.inj this
    · subst z1; subst z2
      rw [hi1] at hi2
      exact Option.some.inj hi2
  refine ⟨rule, ⟨fun hone => ⟨fun l1 h1 l2 h2 u1 u2 => ?_, fun e x l hl u => ?_⟩, suff⟩,
    fun hc l hl hu l2 h2 => ⟨fun a2 => ?_, ?_⟩⟩
  · obtain ⟨i1, hi1⟩ := List.mem_iff_getElem?.mp h1
    obtain ⟨i2, hi2⟩ := List.mem_iff_getElem?.mp h2
    exact hone l1 h1 l2 h2 ((rule i1 l1 hi1).mpr (Or.inl u1)) ((rule i2 l2 hi2).mpr (Or.inl u2))
  · obtain ⟨i, hi⟩ := List.mem_iff_getElem?.mp hl
    cases h0 : (querySelectorAllA (setInnerHTML page.document this content) this)[0]? with
    | none =>
      have hlen := List.getElem?_eq_none_iff.mp h0
      have : (querySelectorAllA (setInnerHTML page.document this content) this) = [] :=
        List.eq_nil_of_length_eq_zero (by omega)
      rw [this] at hl
      cases hl
    | some first =>
      have hf := List.getElem?_mem h0
      have := hone l hl first hf ((rule i l hi).mpr (Or.inl u))
        ((rule 0 first h0).mpr (Or.inr ⟨rfl, e, x⟩))
      rw [this]
  · obtain ⟨i, hi⟩ := List.mem_iff_getElem?.mp hl
    exact suff hc l2 h2 l hl a2 ((rule i l hi).mpr (Or.inl hu))
  · rintro rfl
    obtain ⟨i, hi⟩ := List.mem_iff_getElem?.mp h2
    exact (rule i l2 hi).mpr (Or.inl hu)

/-- Witness for C2: on the sample tree, with an empty root path and the location
`https://example.org/book/index.html`, where the rule for the first link applies, the
first link is marked active and at most one link is. -/
theorem at_most_one_active_witness :
    classListContains
        (connectedCallback resolveInBook "" "https://example.org/book/index.html" [0, 0]
          tocSample (samplePage sidebarHost 0 none)).document
        [0, 0, 0, 0, 0] "active" = true ∧
    (∀ l1 ∈ querySelectorAllA (setInnerHTML sidebarHost [0, 0] tocSample) [0, 0],
      ∀ l2 ∈ querySelectorAllA (setInnerHTML sidebarHost [0, 0] tocSample) [0, 0],
        classListContains
          (connectedCallback resolveInBook "" "https://example.org/book/index.html" [0, 0]
            tocSample (samplePage sidebarHost 0 none)).document l1 "active" = true →
        classListContains
          (connectedCallback resolveInBook "" "https://example.org/book/index.html" [0, 0]
            tocSample (samplePage sidebarHost 0 none)).document l2 "active" = true →
        l1 = l2) :=
  ⟨by decide,
   (at_most_one_active resolveInBook "" "https://example.org/book/index.html" [0, 0]
    tocSample (samplePage sidebarHost 0 none) (by decide)).2.1.mpr ⟨by decide, by decide⟩⟩

/-! ## Ancestor expansion -/

theorem stepTarget_eq_some_iff (doc : Dom) (q x : Path) :
    stepTarget doc q = some x ↔
      (tagNameAt doc q = some "LI" ∧ previousElementSibling q = some x ∧
        classListContains doc x "chapter-item" = true) := by
  unfold stepTarget
  by_cases ht : tagNameAt doc q = some "LI"
  · cases hp : previousElementSibling q with
    | none => simp [ht]
    | some prev =>
      by_cases hc : classListContains doc prev "chapter-item" = true
      · simp only [ht, beq_self_eq_true, if_true, hc, Option.some.injEq, true_and]
        constructor
        · rintro rfl; exact ⟨rfl, hc⟩
        · rintro ⟨h, _⟩; exact h
      · simp only [ht, beq_self_eq_true, if_true, hc, Option.some.injEq, true_and]
        constructor
        · intro h; simp at h
        · rintro ⟨rfl, h⟩; exact absurd h hc
  · simp [ht]

theorem mem_walkTargets (doc : Dom) (p x : Path) :
    x ∈ walkTargets doc p ↔ ∃ q, q ≠ [] ∧ q <:+ p ∧ stepTarget doc q = some x := by
  induction p with
  | nil =>
    simp only [walkTargets, List.not_mem_nil, false_iff]
    rintro ⟨q, hq, hs, _⟩
    exact hq (List.suffix_nil.mp hs)
  | cons k r ih =>
    simp only [walkTargets, List.mem_append, Option.mem_toList, Option.mem_def, ih]
    constructor
    · rintro (h | ⟨q, hq, hs, h⟩)
      · exact ⟨k :: r, by simp, List.suffix_refl _, h⟩
      · exact ⟨q, hq, hs.trans (List.suffix_cons k r), h⟩
    · rintro ⟨q, hq, hs, h⟩
      rcases List.suffix_cons_iff.mp hs with rfl | hs
      · exact Or.inl h
      · exact Or.inr ⟨q, hq, hs, h⟩

theorem mem_expandTargets (doc : Dom) (link x : Path) :
    x ∈ expandTargets doc link ↔
      ∃ parent, parentElement link = some parent ∧
        ((x = parent ∧ classListContains doc parent "chapter-item" = true) ∨
          ∃ q, q ≠ [] ∧ q <:+ parent ∧ tagNameAt doc q = some "LI" ∧
            previousElementSibling q = some x ∧
            classListContains doc x "chapter-item" = true) := by
  unfold expandTargets
  cases hp : parentElement link with
  | none => simp
  | some parent =>
    simp only [List.mem_append, mem_walkTargets, stepTarget_eq_some_iff, Option.some.injEq,
      exists_eq_left']
    by_cases hc : classListContains doc parent "chapter-item" = true
    · simp [hc]
    · simp [hc]

theorem loopMarks_expanded (resolve : String → String) (path_to_root page : String) (doc : Dom)
    (links : List Path) (x : Path) :
    LoopMarks resolve path_to_root page doc links 0 x "expanded" ↔
      ∃ i link, links[i]? = some link ∧
        isActiveEntry resolve path_to_root page doc i link = true ∧
        x ∈ expandTargets doc link := by
  unfold LoopMarks
  constructor
  · rintro (⟨h, _⟩ | ⟨_, j, l, hm, ha, hx⟩)
    · exact absurd h (by decide)
    · exact ⟨j, l, mem_enumFrom_zero.mp hm, ha, hx⟩
  · rintro ⟨j, l, hm, ha, hx⟩
    exact Or.inr ⟨rfl, j, l, mem_enumFrom_zero.mpr hm, ha, hx⟩

theorem expanded_iff_aux (resolve : String → String) (path_to_root location : String)
    (this : Path) (content : Dom) (page : Page) (x : Path) :
    classListContains
        (connectedCallback resolve path_to_root location this content page).document
        x "expanded" = true ↔
      (classListContains (setInnerHTML page.document this content) x "expanded" = true ∨
        ∃ i link,
          (querySelectorAllA (setInnerHTML page.document this content) this)[i]? = some link ∧
          isActiveEntry resolve path_to_root (current_page location)
            (setInnerHTML page.document this content) i link = true ∧
          x ∈ expandTargets (setInnerHTML page.document this content) link) := by
  rw [connectedCallback_document,
    (resolveActive_spec resolve path_to_root location this content page.document).2.2,
    loopMarks_expanded]

/-- Counterexample for C3: in the sample tree, seen from the page `hash_index.html` of
the nested section, the link of that page is marked active, and the list item of the
page `no_index.html`, its preceding sibling in the same section, gains `expanded`,
although it is neither the list item of the active link nor above the active link. -/
theorem expansion_exact_counterexample :
    classListContains
        (connectedCallback resolveInGraphs "../../"
          "https://example.org/book/guide/graphs/hash_index.html" [0, 0] tocSample
          (samplePage sidebarHost 0 none)).document
        [0, 1, 0, 3, 0, 0, 0] "active" = true ∧
      hrefAt (setInnerHTML sidebarHost [0, 0] tocSample) [0, 0, 0, 3, 0, 0, 0]
        = some (some "guide/graphs/no_index.html") ∧
      parentElement [0, 0, 0, 3, 0, 0, 0] = some [0, 0, 3, 0, 0, 0] ∧
      parentElement [0, 1, 0, 3, 0, 0, 0] = some [1, 0, 3, 0, 0, 0] ∧
      isDescendantOf [0, 1, 0, 3, 0, 0, 0] [0, 0, 3, 0, 0, 0] = false ∧
      classListContains (setInnerHTML sidebarHost [0, 0] tocSample)
        [0, 0, 3, 0, 0, 0] "expanded" = false ∧
      classListContains
        (connectedCallback resolveInGraphs "../../"
          "https://example.org/book/guide/graphs/hash_index.html" [0, 0] tocSample
          (samplePage sidebarHost 0 none)).document
        [0, 0, 3, 0, 0, 0] "expanded" = true := by
  decide

/-- Claim C3, amended.  An element carries `expanded` after `connectedCallback` exactly
when it carried it before or, for some link that the loop marks active, it is the parent
of the link and a chapter item, or it is a chapter item and the previous sibling of an
`LI` element that is the parent of the link or above it.  For a link in a nested section
these are its own list item, the chapter items of the sections around it and the chapter
item just before its own list item; no other element gains the mark. -/
theorem expanded_iff (resolve : String → String) (path_to_root location : String)
    (this : Path) (content : Dom) (page : Page) (x : Path) :
    classListContains
        (connectedCallback resolve path_to_root location this content page).document
        x "expanded" = true ↔
      (classListContains (setInnerHTML page.document this content) x "expanded" = true ∨
        ∃ i link,
          (querySelectorAllA (setInnerHTML page.document this content) this)[i]? = some link ∧
          isActiveEntry resolve path_to_root (current_page location)
            (setInnerHTML page.document this content) i link = true ∧
          ∃ parent, parentElement link = some parent ∧
            ((x = parent ∧
                classListContains (setInnerHTML page.document this content) parent
                  "chapter-item" = true) ∨
              ∃ q, q ≠ [] ∧ q <:+ parent ∧
                tagNameAt (setInnerHTML page.document this content) q = some "LI" ∧
                previousElementSibling q = some x ∧
                classListContains (setInnerHTML page.document this content) x
                  "chapter-item" = true)) := by
  rw [expanded_iff_aux]
  simp only [mem_expandTargets]

/-- Claim C4.  For a link of the tree that gains `active` in `connectedCallback`: its
parent, when it is a chapter item, carries `expanded` afterwards, and so does every
chapter item that is the previous sibling of an `LI` element on the chain from the
parent of the link up to the root of the document, whatever the other levels of the chain
look like.  The walk is a recursion on the path and always ends. -/
theorem ancestors_expanded (resolve : String → String) (path_to_root location : String)
    (this : Path) (content : Dom) (page : Page) (link parent : Path)
    (hl : link ∈ querySelectorAllA (setInnerHTML page.document this content) this)
    (hbefore : classListContains (setInnerHTML page.document this content) link "active"
      = false)
    (hafter : classListContains
      (connectedCallback resolve path_to_root location this content page).document
      link "active" = true)
    (hp : parentElement link = some parent) :
    (classListContains (setInnerHTML page.document this content) parent "chapter-item" = true →
      classListContains
        (connectedCallback resolve path_to_root location this content page).document
        parent "expanded" = true) ∧
    (∀ q s, q ≠ [] → q <:+ parent →
      tagNameAt (setInnerHTML page.document this content) q = some "LI" →
      previousElementSibling q = some s →
      classListContains (setInnerHTML page.document this content) s "chapter-item" = true →
      classListContains
        (connectedCallback resolve path_to_root location this content page).document
        s "expanded" = true) := by
  obtain ⟨i, hi⟩ := List.mem_iff_getElem?.mp hl
  have hact : isActiveEntry resolve path_to_root (current_page location)
      (setInnerHTML page.document this content) i link = true := by
    rw [connectedCallback_document,
      (resolveActive_spec resolve path_to_root location this content page.document).2.2,
      loopMarks_active _ _ _ _ _ (querySelectorAllA_nodup _ _) i link hi] at hafter
    rcases hafter with h | h
    · rw [hbefore] at h; cases h
    · exact h
  refine ⟨fun hc => ?_, fun q s hq hs ht hprev hc => ?_⟩
  · rw [expanded_iff_aux]
    exact Or.inr ⟨i, link, hi, hact,
      (mem_expandTargets _ _ _).mpr ⟨parent, hp, Or.inl ⟨rfl, hc⟩⟩⟩
  · rw [expanded_iff_aux]
    exact Or.inr ⟨i, link, hi, hact,
      (mem_expandTargets _ _ _).mpr ⟨parent, hp, Or.inr ⟨q, hq, hs, ht, hprev, hc⟩⟩⟩

/-- Witness for C4: in the sample tree, seen from the page `hash_index.html` of the
nested section, the list item of that page and the chapter item `guide/graphs.html`
before the wrapper of the section carry `expanded`. -/
theorem ancestors_expanded_witness :
    classListContains
        (connectedCallback resolveInGraphs "../../"
          "https://example.org/book/guide/graphs/hash_index.html" [0, 0] tocSample
          (samplePage sidebarHost 0 none)).document
        [1, 0, 3, 0, 0, 0] "expanded" = true ∧
      classListContains
        (connectedCallback resolveInGraphs "../../"
          "https://example.org/book/guide/graphs/hash_index.html" [0, 0] tocSample
          (samplePage sidebarHost 0 none)).document
        [2, 0, 0, 0] "expanded" = true :=
  have h := ancestors_expanded resolveInGraphs "../../"
    "https://example.org/book/guide/graphs/hash_index.html" [0, 0] tocSample
    (samplePage sidebarHost 0 none) [0, 1, 0, 3, 0, 0, 0] [1, 0, 3, 0, 0, 0]
    (by decide) (by decide) (by decide) rfl
  ⟨h.1 (by decide),
   h.2 [3, 0, 0, 0] [2, 0, 0, 0] (by decide) (by decide) (by decide) rfl (by decide)⟩

/-! ## Rewriting of the link targets -/

theorem absoluteUrlTest_iff (href : String) :
    absoluteUrlTest href = true ↔
      (startsWith href "//" = true ∨
        ∃ s rest, s ≠ [] ∧ (∀ c ∈ s, schemeChar c = true) ∧
          href.data = s ++ "://".data ++ rest) := by
  unfold absoluteUrlTest
  rw [Bool.or_eq_true]
  apply or_congr Iff.rfl
  simp only [Bool.and_eq_true, Bool.not_eq_true', List.isEmpty_eq_false,
    List.isPrefixOf_iff_prefix]
  constructor
  · rintro ⟨hne, rest, hrest⟩
    refine ⟨href.data.takeWhile schemeChar, rest, hne, ?_, ?_⟩
    · intro c hc
      exact List.mem_takeWhile_imp hc
    · rw [List.append_assoc, hrest, List.takeWhile_append_dropWhile]
  · rintro ⟨s, rest, hs, hall, hd⟩
    have h1 : href.data.takeWhile schemeChar = s := by
      rw [hd, List.append_assoc, List.takeWhile_append_of_pos hall]
      simp [List.takeWhile_cons, schemeChar]
    have h2 : href.data.dropWhile schemeChar = "://".data ++ rest := by
      rw [hd, List.append_assoc, List.dropWhile_append_of_pos hall]
      simp [List.dropWhile_cons, schemeChar]
    rw [h1, h2]
    exact ⟨by simpa using hs, rest, rfl⟩

theorem hrefAt_links (resolve : String → String) (path_to_root location : String)
    (this : Path) (content : Dom) (page : Page) (link : Path)
    (hl : link ∈ querySelectorAllA (setInnerHTML page.document this content) this) :
    hrefAt (connectedCallback resolve path_to_root location this content page).document link
      = (hrefAt (setInnerHTML page.document this content) link).map
          (rewrittenTarget path_to_root) := by
  rw [connectedCallback_document,
    (resolveActive_spec resolve path_to_root location this content page.document).2.1]
  simp [hl]

/-- Counterexample for C5: `HTTPS://example.com/x` begins with a URL scheme, and with the
root path `../../` the link target becomes `../../HTTPS://example.com/x`. -/
theorem absolute_links_counterexample :
    beginsWithUrlScheme "HTTPS://example.com/x" = true ∧
      hrefAt (setInnerHTML sidebarHost [0, 0] tocLinkKinds) [0, 3, 0, 0, 0]
        = some (some "HTTPS://example.com/x") ∧
      hrefAt
        (connectedCallback resolveInGraphs "../../"
          "https://example.org/book/guide/graphs/hash_index.html" [0, 0] tocLinkKinds
          (samplePage sidebarHost 0 none)).document [0, 3, 0, 0, 0]
        = some (some "../../HTTPS://example.com/x") := by
  decide

/-- Claim C5, amended.  A link whose `href` begins with `//`, or with one or more of the
characters `a` to `z` and `+` followed by `://`, or with `#`, keeps its target in
`connectedCallback`, whatever the root path is. -/
theorem absolute_links_unchanged (resolve : String → String) (path_to_root location : String)
    (this : Path) (content : Dom) (page : Page) (link : Path) (href : String)
    (hl : link ∈ querySelectorAllA (setInnerHTML page.document this content) this)
    (hh : hrefAt (setInnerHTML page.document this content) link = some (some href))
    (habs : startsWith href "//" = true ∨
      (∃ s rest, s ≠ [] ∧ (∀ c ∈ s, schemeChar c = true) ∧
        href.data = s ++ "://".data ++ rest) ∨
      startsWith href "#" = true) :
    hrefAt (connectedCallback resolve path_to_root location this content page).document link
      = some (some href) := by
  rw [hrefAt_links _ _ _ _ _ _ _ hl, hh]
  have : absoluteUrlTest href = true ∨ startsWith href "#" = true := by
    rcases habs with h | h | h
    · exact Or.inl ((absoluteUrlTest_iff href).mpr (Or.inl h))
    · exact Or.inl ((absoluteUrlTest_iff href).mpr (Or.inr h))
    · exact Or.inr h
  rcases this with h | h <;> simp [rewrittenTarget, h]

/-- Witness for C5: the link `https://example.com/x` under the root path `../../`. -/
theorem absolute_links_unchanged_witness :
    hrefAt
        (connectedCallback resolveInGraphs "../../"
          "https://example.org/book/guide/graphs/hash_index.html" [0, 0] tocLinkKinds
          (samplePage sidebarHost 0 none)).document [0, 1, 0, 0, 0]
      = some (some "https://example.com/x") :=
  absolute_links_unchanged resolveInGraphs "../../"
    "https://example.org/book/guide/graphs/hash_index.html" [0, 0] tocLinkKinds
    (samplePage sidebarHost 0 none) [0, 1, 0, 0, 0] "https://example.com/x" (by decide)
    (by decide)
    (Or.inr (Or.inl ⟨"https".data, "example.com/x".data, by decide, by decide, by decide⟩))

/-- Claim C6.  A link whose `href` is not empty, does not begin with `#` and fails the
test for absolute URLs has, after `connectedCallback`, the target `path_to_root ++ href`:
the root path is put in front once.  With an empty root path the target is `href`. -/
theorem relative_links_rewritten (resolve : String → String) (path_to_root location : String)
    (this : Path) (content : Dom) (page : Page) (link : Path) (href : String)
    (hl : link ∈ querySelectorAllA (setInnerHTML page.document this content) this)
    (hh : hrefAt (setInnerHTML page.document this content) link = some (some href))
    (hne : href ≠ "") (hfrag : startsWith href "#" = false)
    (habs : absoluteUrlTest href = false) :
    hrefAt (connectedCallback resolve path_to_root location this content page).document link
        = some (some (path_to_root ++ href)) ∧
      (path_to_root = "" →
        hrefAt (connectedCallback resolve path_to_root location this content page).document
          link = some (some href)) := by
  have h : hrefAt (connectedCallback resolve path_to_root location this content page).document
      link = some (some (path_to_root ++ href)) := by
    rw [hrefAt_links _ _ _ _ _ _ _ hl, hh]
    simp [rewrittenTarget, hne, hfrag, habs]
  refine ⟨h, ?_⟩
  rintro rfl
  rw [h]
  simp

/-- Witness for C6: the link `foo/bar.html` under the root path `../../`. -/
theorem relative_links_rewritten_witness :
    hrefAt
        (connectedCallback resolveInGraphs "../../"
          "https://example.org/book/guide/graphs/hash_index.html" [0, 0] tocLinkKinds
          (samplePage sidebarHost 0 none)).document [0, 0, 0, 0, 0]
      = some (some "../../foo/bar.html") :=
  (relative_links_rewritten resolveInGraphs "../../"
    "https://example.org/book/guide/graphs/hash_index.html" [0, 0] tocLinkKinds
    (samplePage sidebarHost 0 none) [0, 0, 0, 0, 0] "foo/bar.html" (by decide)
    (by decide) (by decide) (by decide) (by decide)).1

/-! ## The normalized location -/

theorem forLoop_congr_resolve (resolve1 resolve2 : String → String)
    (path_to_root page : String) (links : List Path) (i : Nat) (doc : Dom)
    (hnd : links.Nodup) (hex : ∀ l ∈ links, (getElement doc l).isSome = true)
    (hres : ∀ l ∈ links,
      (resolvedUrl resolve1 path_to_root doc l = page ↔
        resolvedUrl resolve2 path_to_root doc l = page)) :
    forLoop resolve1 path_to_root page links i doc
      = forLoop resolve2 path_to_root page links i doc := by
  induction links generalizing i doc with
  | nil => rfl
  | cons link rest ih =>
    have hl : (getElement doc link).isSome = true := hex link (List.mem_cons_self _ _)
    have hact : isActiveEntry resolve1 path_to_root page doc i link
        = isActiveEntry resolve2 path_to_root page doc i link := by
      have h := hres link (List.mem_cons_self _ _)
      unfold isActiveEntry
      congr 1
      rw [Bool.eq_iff_iff]
      simpa using h
    have hbody : loopBody resolve1 path_to_root page doc i link
        = loopBody resolve2 path_to_root page doc i link := by
      unfold loopBody
      simp only [matchesPage_rewrite, hact]
    have hb := gains_loopBody resolve2 path_to_root page doc i link hl
    have ht2 : ∀ x, tagNameAt (loopBody resolve2 path_to_root page doc i link) x
        = tagNameAt doc x := fun x =>
      (hb.1 x).trans (tagNameAt_rewrite doc link x path_to_root)
    have hnl : link ∉ rest := (List.nodup_cons.mp hnd).1
    have hh2 : ∀ l ∈ rest, hrefAt (loopBody resolve2 path_to_root page doc i link) l
        = hrefAt doc l := by
      intro l hm
      rw [hb.2.1 l, hrefAt_rewrite]
      have : l ≠ link := fun e => hnl (e ▸ hm)
      simp [this]
    show forLoop resolve1 path_to_root page rest (i + 1)
        (loopBody resolve1 path_to_root page doc i link)
      = forLoop resolve2 path_to_root page rest (i + 1)
        (loopBody resolve2 path_to_root page doc i link)
    rw [hbody]
    apply ih (i + 1) _ (List.nodup_cons.mp hnd).2
    · intro l hm
      rw [isSome_of_tagNameAt ht2]
      exact hex l (List.mem_cons_of_mem _ hm)
    · intro l hm
      rw [resolvedUrl_congr resolve1 path_to_root (hh2 l hm),
        resolvedUrl_congr resolve2 path_to_root (hh2 l hm)]
      exact hres l (List.mem_cons_of_mem _ hm)

/-- Counterexample for C7: in the tree whose second link has an empty `href`, that link
resolves to the URL of the document itself.  At the location `https://example.org/book/`
it is not marked active, and at `https://example.org/book/index.html` it is. -/
theorem directory_index_counterexample :
    endsWith "https://example.org/book/" "/" = true ∧
      hrefAt (setInnerHTML sidebarHost [0, 0] tocEmptyHref) [0, 1, 0, 0, 0] = some (some "") ∧
      classListContains
        (connectedCallback (resolveInBookAt "https://example.org/book/") ""
          "https://example.org/book/" [0, 0] tocEmptyHref
          (samplePage sidebarHost 0 none)).document
        [0, 1, 0, 0, 0] "active" = false ∧
      classListContains
        (connectedCallback (resolveInBookAt ("https://example.org/book/" ++ "index.html")) ""
          ("https://example.org/book/" ++ "index.html") [0, 0] tocEmptyHref
          (samplePage sidebarHost 0 none)).document
        [0, 1, 0, 0, 0] "active" = true := by
  decide

/-- Claim C7, amended.  For a location that ends in `/`, the location with `index.html`
appended has the same normalized location, and no normalized location contains `#` or
ends in `/`.  `connectedCallback` gives the same page for both locations whenever every
link of the tree resolves to the normalized location in the one document exactly when it
does in the other; `resolve1` and `resolve2` are the URL resolutions of the two
documents. -/
theorem directory_index_alias (resolve1 resolve2 : String → String)
    (path_to_root location : String) (this : Path) (content : Dom) (page : Page)
    (hdir : endsWith location "/" = true)
    (hres : ∀ l ∈ querySelectorAllA (setInnerHTML page.document this content) this,
      (resolvedUrl resolve1 path_to_root (setInnerHTML page.document this content) l
          = current_page location ↔
        resolvedUrl resolve2 path_to_root (setInnerHTML page.document this content) l
          = current_page location)) :
    current_page (location ++ "index.html") = current_page location ∧
      connectedCallback resolve1 path_to_root (location ++ "index.html") this content page
        = connectedCallback resolve2 path_to_root location this content page ∧
      (∀ other : String, '#' ∉ (current_page other).data ∧
        endsWith (current_page other) "/" = false) := by
  refine ⟨current_page_index location hdir, ?_, fun other =>
    ⟨current_page_no_hash other, current_page_not_dir other⟩⟩
  have hloop := forLoop_congr_resolve resolve1 resolve2 path_to_root (current_page location)
    (querySelectorAllA (setInnerHTML page.document this content) this) 0
    (setInnerHTML page.document this content) (querySelectorAllA_nodup _ _)
    (querySelectorAllA_isSome _ _) hres
  simp only [connectedCallback, resolveActive, current_page_index location hdir, hloop]

/-- Witness for C7: the sample tree at the location `https://example.org/book/` of the
book itself, each document with its own URL resolution. -/
theorem directory_index_alias_witness :
    current_page ("https://example.org/book/" ++ "index.html")
        = current_page "https://example.org/book/" ∧
      connectedCallback (resolveInBookAt ("https://example.org/book/" ++ "index.html")) ""
          ("https://example.org/book/" ++ "index.html") [0, 0] tocSample
          (samplePage sidebarHost 0 none)
        = connectedCallback (resolveInBookAt "https://example.org/book/") ""
          "https://example.org/book/" [0, 0] tocSample (samplePage sidebarHost 0 none) ∧
      (∀ other : String, '#' ∉ (current_page other).data ∧
        endsWith (current_page other) "/" = false) :=
  directory_index_alias (resolveInBookAt ("https://example.org/book/" ++ "index.html"))
    (resolveInBookAt "https://example.org/book/") "" "https://example.org/book/" [0, 0]
    tocSample (samplePage sidebarHost 0 none) (by decide) (by decide)

/-! ## Scroll position -/

theorem digitChar_toNat (k : Nat) (h : k < 10) : (Nat.digitChar k).toNat - 48 = k := by
  interval_cases k <;> rfl

theorem foldl_toDigitsCore (fuel n : Nat) (ds : List Char) (h : n < fuel) :
    (Nat.toDigitsCore 10 fuel n ds).foldl (fun acc c => 10 * acc + (c.toNat - 48)) 0
      = ds.foldl (fun acc c => 10 * acc + (c.toNat - 48)) n := by
  induction fuel generalizing n ds with
  | zero => omega
  | succ fuel ih =>
    unfold Nat.toDigitsCore
    simp only
    have hd := digitChar_toNat (n % 10) (Nat.mod_lt _ (by decide))
    split
    · rename_i h0
      have hn : n % 10 = n := by omega
      rw [hn] at hd
      simp only [List.foldl_cons, hd, hn, Nat.mul_zero, Nat.zero_add]
    · rename_i h0
      rw [ih (n / 10) _ (by omega)]
      simp only [List.foldl_cons, hd]
      congr 1
      omega

theorem stringToNumber_numberToString (n : Nat) : stringToNumber (numberToString n) = n := by
  unfold stringToNumber numberToString Nat.toDigits
  rw [foldl_toDigitsCore _ _ _ (Nat.lt_succ_self n)]
  rfl

theorem toDigitsCore_ne_nil (fuel n : Nat) (ds : List Char) (h : ds ≠ [] ∨ 0 < fuel) :
    Nat.toDigitsCore 10 fuel n ds ≠ [] := by
  induction fuel generalizing n ds with
  | zero =>
    rcases h with h | h
    · simpa [Nat.toDigitsCore] using h
    · omega
  | succ fuel ih =>
    unfold Nat.toDigitsCore
    simp only
    split
    · simp
    · exact ih _ _ (Or.inl (by simp))

theorem numberToString_ne_empty (n : Nat) : numberToString n ≠ "" := by
  intro h
  have h1 := congrArg String.data h
  exact toDigitsCore_ne_nil (n + 1) n [] (Or.inr (Nat.succ_pos n)) h1

/-- Claim C8.  When the click listener runs on a page with scroll offset `S` for a click
on a link, it stores `S` in the slot `sidebar-scroll`; `connectedCallback` on the next
page load then sets the scroll offset to `S`, calls `scrollIntoView` on nothing and
leaves the slot empty, so that one more page load finds no stored value and keeps its
scroll offset. -/
theorem scroll_round_trip (resolve : String → String) (path_to_root location : String)
    (this : Path) (content : Dom) (clicked fresh : Page) (target : Path) (S : Nat)
    (hS : clicked.scrollTop = S) (hA : tagNameAt clicked.document target = some "A") :
    (clickListener clicked target).sessionStorage "sidebar-scroll"
        = some (numberToString S) ∧
      (connectedCallback resolve path_to_root location this content
        (reload (clickListener clicked target).sessionStorage fresh)).scrollTop = S ∧
      (connectedCallback resolve path_to_root location this content
        (reload (clickListener clicked target).sessionStorage fresh)).scrolledIntoView
        = fresh.scrolledIntoView ∧
      (connectedCallback resolve path_to_root location this content
        (reload (clickListener clicked target).sessionStorage fresh)).sessionStorage
        "sidebar-scroll" = none ∧
      (∀ (resolve2 : String → String) (path_to_root2 location2 : String) (this2 : Path)
        (content2 : Dom) (fresh2 : Page),
        (reload (connectedCallback resolve path_to_root location this content
          (reload (clickListener clicked target).sessionStorage fresh)).sessionStorage
          fresh2).sessionStorage "sidebar-scroll" = none ∧
        (connectedCallback resolve2 path_to_root2 location2 this2 content2
          (reload (connectedCallback resolve path_to_root location this content
            (reload (clickListener clicked target).sessionStorage fresh)).sessionStorage
            fresh2)).scrollTop = fresh2.scrollTop) := by
  have hstore : (clickListener clicked target).sessionStorage "sidebar-scroll"
      = some (numberToString S) := by
    simp [clickListener, hA, setItem, hS]
  have hne : (numberToString S != "") = true := by
    simpa using numberToString_ne_empty S
  refine ⟨hstore, ?_, ?_, ?_, ?_⟩
  · simp [connectedCallback, reload, hstore, hne, stringToNumber_numberToString]
  · simp [connectedCallback, reload, hstore, hne]
  · simp [connectedCallback, reload, removeItem]
  · intro resolve2 path_to_root2 location2 this2 content2 fresh2
    constructor
    · simp [connectedCallback, reload, removeItem]
    · simp only [connectedCallback, reload, removeItem, if_true]
      split <;> rfl

/-- Witness for C8: the scroll offset `0`, stored by a click on the second link of the
sample tree. -/
theorem scroll_round_trip_witness :
    (clickListener (samplePage (setInnerHTML sidebarHost [0, 0] tocSample) 0 none)
        [0, 1, 0, 0, 0]).sessionStorage "sidebar-scroll" = some (numberToString 0) ∧
      (connectedCallback resolveInBook "" "https://example.org/book/introduction.html"
        [0, 0] tocSample
        (reload (clickListener (samplePage (setInnerHTML sidebarHost [0, 0] tocSample) 0 none)
          [0, 1, 0, 0, 0]).sessionStorage (samplePage sidebarHost 35 none))).scrollTop = 0 :=
  have h := scroll_round_trip resolveInBook "" "https://example.org/book/introduction.html"
    [0, 0] tocSample (samplePage (setInnerHTML sidebarHost [0, 0] tocSample) 0 none)
    (samplePage sidebarHost 35 none) [0, 1, 0, 0, 0] 0 rfl (by decide)
  ⟨h.1, h.2.1⟩

/-- Evaluation for C9: on the sample tree with scroll offset 120 and an empty slot, a
click on the link `guide/start.html` itself stores `120`, and a click on the `strong`
element inside that link, whose `tagName` is `STRONG`, leaves the slot empty. -/
theorem click_on_chapter_number :
    tagNameAt (setInnerHTML sidebarHost [0, 0] tocSample) [0, 1, 0, 0, 0] = some "A" ∧
      (clickListener (samplePage (setInnerHTML sidebarHost [0, 0] tocSample) 120 none)
        [0, 1, 0, 0, 0]).sessionStorage "sidebar-scroll" = some "120" ∧
      parentElement [0, 0, 1, 0, 0, 0] = some [0, 1, 0, 0, 0] ∧
      tagNameAt (setInnerHTML sidebarHost [0, 0] tocSample) [0, 0, 1, 0, 0, 0]
        = some "STRONG" ∧
      (clickListener (samplePage (setInnerHTML sidebarHost [0, 0] tocSample) 120 none)
        [0, 0, 1, 0, 0, 0]).sessionStorage "sidebar-scroll" = none := by
  decide

/-! ## Toggle controls -/

theorem mem_elements_parent (d : Dom) (par : Path) (i k : Nat) (q : Path)
    (h : (k :: q) ∈ (d.elements par i).map Prod.fst) :
    q = par ∨ q ∈ (d.elements par i).map Prod.fst := by
  induction d generalizing par i with
  | nil => simp [Dom.elements] at h
  | node e c n ihc ihn =>
    simp only [Dom.elements, List.map_cons, List.map_append, List.mem_cons, List.mem_append] at h
    simp only [Dom.elements, List.map_cons, List.map_append, List.mem_cons, List.mem_append]
    rcases h with h | h | h
    · exact Or.inl (List.cons.inj h).2
    · rcases ihc _ _ h with h | h
      · exact Or.inr (Or.inl h)
      · exact Or.inr (Or.inr (Or.inl h))
    · rcases ihn _ _ h with h | h
      · exact Or.inl h
      · exact Or.inr (Or.inr (Or.inr h))

theorem toggle_parent_isSome (doc : Dom) (control : Path)
    (hc : control ∈ querySelectorAllSidebarToggle doc) :
    ∃ parent, parentElement control = some parent ∧ (getElement doc parent).isSome = true := by
  unfold querySelectorAllSidebarToggle at hc
  obtain ⟨⟨p, e⟩, hm, rfl⟩ := List.mem_map.mp hc
  obtain ⟨hmem, hsel⟩ := List.mem_filter.mp hm
  simp only [Bool.and_eq_true] at hsel
  have hside := hsel.2
  have hkey : p ∈ (allElements doc).map Prod.fst := List.mem_map.mpr ⟨(p, e), hmem, rfl⟩
  match p, hside, hkey with
  | [], hside, _ => simp [inSidebar, selfOrAncestorHasId] at hside
  | [_], hside, _ => simp [inSidebar, selfOrAncestorHasId] at hside
  | k :: j :: r, _, hkey =>
    refine ⟨j :: r, rfl, getElement_isSome_of_mem doc _ ?_⟩
    rcases mem_elements_parent doc [] 0 k (j :: r) hkey with h | h
    · cases h
    · exact h

theorem mem_toggleClass (c d : String) (e : Element) :
    d ∈ (e.toggleClass c).classList ↔ (d ∈ e.classList ∧ d ≠ c) ∨ (d = c ∧ c ∉ e.classList) := by
  unfold Element.toggleClass
  split
  · rename_i h
    simp only [List.mem_filter, bne_iff_ne, ne_eq]
    constructor
    · exact Or.inl
    · rintro (h1 | ⟨_, h2⟩)
      · exact h1
      · exact absurd h h2
  · rename_i h
    simp only [List.mem_append, List.mem_singleton]
    constructor
    · rintro (h1 | rfl)
      · exact Or.inl ⟨h1, fun e => h (e ▸ h1)⟩
      · exact Or.inr ⟨rfl, h⟩
    · rintro (⟨h1, _⟩ | ⟨rfl, _⟩)
      · exact Or.inl h1
      · exact Or.inr rfl

theorem toggleClass_attrs (c : String) (e : Element) :
    (e.toggleClass c).tagName = e.tagName ∧ (e.toggleClass c).id = e.id ∧
      (e.toggleClass c).href = e.href := by
  unfold Element.toggleClass
  split <;> exact ⟨rfl, rfl, rfl⟩

theorem classListContains_toggle (doc : Dom) (parent x : Path) (c : String)
    (hp : (getElement doc parent).isSome = true) :
    classListContains (updateElement doc parent (Element.toggleClass "expanded")) x c
      = if x = parent ∧ c = "expanded" then !classListContains doc x c
        else classListContains doc x c := by
  unfold classListContains
  rw [getElement_updateElement]
  by_cases hx : x = parent
  · subst hx
    obtain ⟨e, he⟩ := Option.isSome_iff_exists.mp hp
    simp only [he, Option.map_some', if_true, true_and]
    by_cases hc : c = "expanded"
    · subst hc
      by_cases hm : "expanded" ∈ e.classList <;> simp [mem_toggleClass, hm]
    · by_cases hm : c ∈ e.classList <;> simp [mem_toggleClass, hm, hc]
  · simp [hx]

theorem attrs_toggle (doc : Dom) (parent x : Path) :
    (getElement (updateElement doc parent (Element.toggleClass "expanded")) x).map
        (fun e => (e.tagName, e.id, e.href))
      = (getElement doc x).map (fun e => (e.tagName, e.id, e.href)) := by
  rw [getElement_updateElement]
  split
  · cases getElement doc x with
    | none => rfl
    | some e =>
      obtain ⟨h1, h2, h3⟩ := toggleClass_attrs "expanded" e
      simp [h1, h2, h3]
  · rfl

/-- Claim C10.  For a toggle control of the sidebar, `toggleSection` inverts the presence
of `expanded` on the parent of the control and changes nothing else: every other element
is as before, and the parent keeps its tag name, id, link target and all other classes.
A second call gives back the marks of the original document. -/
theorem toggle_flips (doc : Dom) (control : Path)
    (hc : control ∈ querySelectorAllSidebarToggle doc) :
    ∃ parent doc1 doc2,
      parentElement control = some parent ∧
      toggleSection doc control = some doc1 ∧
      toggleSection doc1 control = some doc2 ∧
      classListContains doc1 parent "expanded" = !classListContains doc parent "expanded" ∧
      (∀ x c, (x ≠ parent ∨ c ≠ "expanded") →
        classListContains doc1 x c = classListContains doc x c) ∧
      (∀ x, x ≠ parent → getElement doc1 x = getElement doc x) ∧
      (∀ x, (getElement doc1 x).map (fun e => (e.tagName, e.id, e.href))
        = (getElement doc x).map (fun e => (e.tagName, e.id, e.href))) ∧
      (∀ x c, classListContains doc2 x c = classListContains doc x c) ∧
      (∀ x, (getElement doc2 x).map (fun e => (e.tagName, e.id, e.href))
        = (getElement doc x).map (fun e => (e.tagName, e.id, e.href))) := by
  obtain ⟨parent, hp, hs⟩ := toggle_parent_isSome doc control hc
  have hs1 : (getElement (updateElement doc parent (Element.toggleClass "expanded"))
      parent).isSome = true := by
    rw [getElement_updateElement]
    simpa using hs
  refine ⟨parent, updateElement doc parent (Element.toggleClass "expanded"),
    updateElement (updateElement doc parent (Element.toggleClass "expanded")) parent
      (Element.toggleClass "expanded"), hp, ?_, ?_, ?_, ?_, ?_, ?_, ?_, ?_⟩
  · simp [toggleSection, hp]
  · simp [toggleSection, hp]
  · rw [classListContains_toggle doc parent parent "expanded" hs]
    simp
  · intro x c hxc
    rw [classListContains_toggle doc parent x c hs]
    have : ¬ (x = parent ∧ c = "expanded") := by
      rintro ⟨h1, h2⟩
      rcases hxc with h | h
      · exact h h1
      · exact h h2
    simp [this]
  · intro x hx
    rw [getElement_updateElement]
    simp [hx]
  · exact fun x => attrs_toggle doc parent x
  · intro x c
    rw [classListContains_toggle _ parent x c hs1, classListContains_toggle doc parent x c hs]
    by_cases h : x = parent ∧ c = "expanded" <;> simp [h]
  · exact fun x => (attrs_toggle _ parent x).trans (attrs_toggle doc parent x)

/-- Witness for C10: the toggle control of the chapter `guide/graphs.html` in the sample
tree. -/
theorem toggle_flips_witness :
    ∃ parent doc1 doc2,
      parentElement [1, 2, 0, 0, 0] = some parent ∧
      toggleSection (setInnerHTML sidebarHost [0, 0] tocSample) [1, 2, 0, 0, 0] = some doc1 ∧
      toggleSection doc1 [1, 2, 0, 0, 0] = some doc2 ∧
      classListContains doc1 parent "expanded"
        = !classListContains (setInnerHTML sidebarHost [0, 0] tocSample) parent "expanded" ∧
      (∀ x c, (x ≠ parent ∨ c ≠ "expanded") →
        classListContains doc1 x c
          = classListContains (setInnerHTML sidebarHost [0, 0] tocSample) x c) ∧
      (∀ x, x ≠ parent →
        getElement doc1 x = getElement (setInnerHTML sidebarHost [0, 0] tocSample) x) ∧
      (∀ x, (getElement doc1 x).map (fun e => (e.tagName, e.id, e.href))
        = (getElement (setInnerHTML sidebarHost [0, 0] tocSample) x).map
            (fun e => (e.tagName, e.id, e.href))) ∧
      (∀ x c, classListContains doc2 x c
        = classListContains (setInnerHTML sidebarHost [0, 0] tocSample) x c) ∧
      (∀ x, (getElement doc2 x).map (fun e => (e.tagName, e.id, e.href))
        = (getElement (setInnerHTML sidebarHost [0, 0] tocSample) x).map
            (fun e => (e.tagName, e.id, e.href))) :=
  toggle_flips (setInnerHTML sidebarHost [0, 0] tocSample) [1, 2, 0, 0, 0] (by decide)

end Toc
